import Mathlib

set_option maxRecDepth 100000

/-!
Shallow embedding of the crossword-generator core
(`src/js/crossword-generator.js` and `src/js/utils.js`).

Modelling conventions:
* a grid cell is `Option Char` (`none` = the JS `null` sentinel);
* a grid read is `cellAt : Grid → Int → Int → Option (Option Char)`,
  where the outer `none` models the JS `undefined` obtained by reading an
  out-of-bounds index (which compares unequal to both `null` and any letter);
* JS numbers appearing in scores are modelled as `ℚ`; the one place where the
  source divides by zero (`i / (wordLength - 1)` for a length-1 word, a NaN
  in JS) is tracked explicitly with `Option ℚ`, `none` standing for NaN, and
  comparator branches on NaN follow the ECMAScript rule that a NaN comparator
  result is treated as `+0`;
* `Array.prototype.sort` (required stable by ECMAScript) is modelled by a
  stable insertion sort `sortByLe`; for a consistent comparator this agrees
  with every conforming implementation;
* the mutating placement loop is modelled by explicit state passing over
  `GenState`; `generate` returns `Except String Puzzle`, the `.error` case
  modelling the thrown `Error("No words provided")`.
-/

/-- A word, as the sequence of its characters (a JS string). -/
abbrev Word := List Char

/-- A grid cell: `none` is the JS `null` sentinel, `some c` a letter. -/
abbrev Cell := Option Char

/-- The grid: a list of rows, each a list of cells. -/
abbrev Grid := List (List Cell)

/-- Number of grid rows (`this.grid.length`). -/
def grows (g : Grid) : Nat := g.length

/-- Number of grid columns (`this.grid[0].length`). -/
def gcols (g : Grid) : Nat := (g.getD 0 []).length

/-- Read `grid[r][c]` as JS does: the outer `none` models the `undefined`
value produced by an out-of-bounds index. -/
def cellAt (g : Grid) (r c : Int) : Option Cell :=
  if 0 ≤ r ∧ r < (grows g : Int) then
    if 0 ≤ c ∧ c < (((g.getD r.toNat []).length : Nat) : Int) then
      some ((g.getD r.toNat []).getD c.toNat none)
    else none
  else none

/-- `grid[r][c] !== null` for an in-bounds read: the cell holds a letter.
All call sites in the source only reach this with in-bounds indices. -/
def isFilledCell (g : Grid) (r c : Int) : Bool :=
  match cellAt g r c with
  | some (some _) => true
  | _ => false

/-- Write one letter into the grid (`this.grid[r][c] = ch`); out-of-range
writes (never reached by the source) leave the grid unchanged. -/
def setCell (g : Grid) (r c : Int) (ch : Char) : Grid :=
  if 0 ≤ r ∧ 0 ≤ c then g.set r.toNat ((g.getD r.toNat []).set c.toNat (some ch)) else g

/-- The `currentRow`/`currentCol` computation of the source's placement
loops: the cell covered by letter `i` of a word starting at `(row, col)`. -/
def posOf (row col : Int) (isHorizontal : Bool) (i : Nat) : Int × Int :=
  (if isHorizontal then row else row + (i : Int),
   if isHorizontal then col + (i : Int) else col)

/-- The letter-writing loop of `CrosswordGenerator.placeWord`. -/
def writeWord (g : Grid) (w : Word) (row col : Int) (isHorizontal : Bool) : Grid :=
  (List.range w.length).foldl
    (fun g' (i : Nat) =>
      setCell g' (posOf row col isHorizontal i).1 (posOf row col isHorizontal i).2
        (w.getD i ' '))
    g

/-- `CrosswordGenerator.initializeGrid`: a `rows × cols` all-empty grid. -/
def initializeGrid (rows cols : Nat) : Grid :=
  List.replicate rows (List.replicate cols (none : Cell))

/-- `Utils.isValidPosition`. -/
def isValidPosition (r c : Int) (g : Grid) : Bool :=
  decide (0 ≤ r ∧ r < (grows g : Int) ∧ 0 ≤ c ∧ c < (gcols g : Int))

/-- `Utils.canPlaceWord`: bounds check plus the per-cell fit test
(each covered cell empty or already holding the same letter). -/
def canPlaceWord (w : Word) (row col : Int) (isHorizontal : Bool) (g : Grid) : Bool :=
  let len := w.length
  if (if isHorizontal then decide ((gcols g : Int) < col + len)
      else decide ((grows g : Int) < row + len)) then false
  else
    (List.range len).all fun (i : Nat) =>
      let r := if isHorizontal then row else row + (i : Int)
      let c := if isHorizontal then col + (i : Int) else col
      match cellAt g r c with
      | some none => true
      | some (some ex) => ex = w.getD i ' '
      | none => false

/-- Backward horizontal scan of `Utils.hasWordEndingAt`: length of the
contiguous run of filled cells ending at column `c` of row `r`. -/
def hRunLenAux (g : Grid) (r : Int) : Nat → Nat
  | 0 => if isFilledCell g r 0 then 1 else 0
  | c + 1 => if isFilledCell g r ((c : Int) + 1) then hRunLenAux g r c + 1 else 0

/-- Backward vertical scan of `Utils.hasWordEndingAt`. -/
def vRunLenAux (g : Grid) (c : Int) : Nat → Nat
  | 0 => if isFilledCell g 0 c then 1 else 0
  | r + 1 => if isFilledCell g ((r : Int) + 1) c then vRunLenAux g c r + 1 else 0

/-- `Utils.hasWordEndingAt`: a completed run of at least two contiguous
filled cells ends exactly at `(r, c)` in the scanned direction. -/
def hasWordEndingAt (r c : Int) (g : Grid) (isHorizontal : Bool) : Bool :=
  if isHorizontal then
    if c < 0 then false else decide (2 ≤ hRunLenAux g r c.toNat)
  else
    if r < 0 then false else decide (2 ≤ vRunLenAux g c r.toNat)

/-- `Utils.getAdjacentPositions`: the two perpendicular neighbours. -/
def getAdjacentPositions (r c : Int) (isHorizontal : Bool) : List (Int × Int) :=
  if isHorizontal then [(r - 1, c), (r + 1, c)] else [(r, c - 1), (r, c + 1)]

/-- One letter-position step of `Utils.hasValidWordBoundaries`:
`none` = the loop returns `false` outright at this index,
`some b` = the loop continues, or-ing `b` into `hasIntersection`.
A `cellAt` result of `none` (out-of-bounds, the JS `undefined`) fails
both the `null` test and the letter comparison, rejecting the placement. -/
def hvwbStep (w : Word) (row col : Int) (isHorizontal : Bool) (g : Grid) (i : Nat) :
    Option Bool :=
  let r := if isHorizontal then row else row + i
  let c := if isHorizontal then col + i else col
  match cellAt g r c with
  | some (some ex) => if ex = w.getD i ' ' then some true else none
  | some none =>
      let nbrs := getAdjacentPositions r c isHorizontal
      if nbrs.all fun rc =>
          !(isFilledCell g rc.1 rc.2) || hasWordEndingAt rc.1 rc.2 g (!isHorizontal) then
        some (nbrs.any fun rc => isFilledCell g rc.1 rc.2)
      else none
  | none => none

/-- The accumulator loop of `Utils.hasValidWordBoundaries`. -/
def hvwbAux (w : Word) (row col : Int) (isHorizontal : Bool) (g : Grid) :
    List Nat → Bool → Bool
  | [], acc => acc
  | i :: rest, acc =>
      match hvwbStep w row col isHorizontal g i with
      | none => false
      | some b => hvwbAux w row col isHorizontal g rest (acc || b)

/-- `Utils.hasValidWordBoundaries`. -/
def hasValidWordBoundaries (w : Word) (row col : Int) (isHorizontal : Bool) (g : Grid) :
    Bool :=
  hvwbAux w row col isHorizontal g (List.range w.length) false

/-- `Math.ceil(Math.sqrt n)` for the small integer arguments the source
produces (exact: the double sqrt of such integers is correctly rounded). -/
def ceilSqrt (n : Nat) : Nat :=
  if Nat.sqrt n * Nat.sqrt n = n then Nat.sqrt n else Nat.sqrt n + 1

/-- `Utils.calculateGridSize`. -/
def calculateGridSize (ws : List Word) : Nat × Nat :=
  if ws = [] then (20, 20)
  else
    let maxWordLength := ws.foldl (fun m w => max m w.length) 0
    let totalWords := ws.length
    let baseSize := max (maxWordLength + 4) (ceilSqrt (totalWords * maxWordLength * 3))
    let estimatedSize := baseSize * 3 / 2
    (min estimatedSize 50, min estimatedSize 50)

/-- The English letter-frequency table of
`CrosswordGenerator.sortWordsByIntersectionPotential` (missing letters
and non-letters score `0`, the JS `|| 0` default). -/
def letterFrequency (ch : Char) : ℚ :=
  match ch with
  | 'E' => 12.02 | 'T' => 9.1  | 'A' => 8.12 | 'O' => 7.68 | 'I' => 7.31
  | 'N' => 6.95  | 'S' => 6.28 | 'R' => 6.02 | 'H' => 5.92 | 'D' => 4.32
  | 'L' => 3.98  | 'U' => 2.88 | 'C' => 2.71 | 'M' => 2.61 | 'W' => 2.3
  | 'F' => 2.11  | 'G' => 2.09 | 'Y' => 2.11 | 'P' => 1.82 | 'B' => 1.49
  | 'V' => 1.11  | 'K' => 0.69 | 'J' => 0.1  | 'X' => 0.1  | 'Q' => 0.1
  | 'Z' => 0.07  | _ => 0

/-- `Math.abs` on the rationals. -/
def qabs (x : ℚ) : ℚ := if x < 0 then -x else x

/-- The middle-preference factor `1 - Math.abs(i/(L-1) - 0.5) * 2` computed
by the source at letter index `i` of a length-`L` word, in `ℚ`. -/
def middlePref (i L : Nat) : ℚ :=
  1 - qabs (((i : ℚ) / ((L : ℚ) - 1)) - 1/2) * 2

/-- `CrosswordGenerator.calculateWordIntersectionScore`; `none` models the
JS NaN arising from the `0/0` when the word has exactly one letter. -/
def calculateWordIntersectionScore (w : Word) : Option ℚ :=
  if w.length = 1 then none
  else some ((List.range w.length).foldl
    (fun acc i => acc + letterFrequency (w.getD i ' ').toUpper * middlePref i w.length) 0)

/-- `comparator(a, b) ≤ 0` for the word-sort comparator of
`sortWordsByIntersectionPotential`: by descending score when the scores
differ by more than `0.1`, otherwise by descending length.  A NaN score
makes the `> 0.1` test false in JS, also falling to the length branch. -/
def wordCmpLe (a b : Word) : Bool :=
  match calculateWordIntersectionScore a, calculateWordIntersectionScore b with
  | some x, some y =>
      if qabs (x - y) > 1/10 then decide (y ≤ x) else decide (b.length ≤ a.length)
  | _, _ => decide (b.length ≤ a.length)

/-- Stable insertion into a sorted list (earlier elements stay in front of
later ties, matching the ECMAScript stability requirement). -/
def insertSorted (le : α → α → Bool) (x : α) : List α → List α
  | [] => [x]
  | y :: ys => if le x y then x :: y :: ys else y :: insertSorted le x ys

/-- Stable sort modelling `Array.prototype.sort`. -/
def sortByLe (le : α → α → Bool) : List α → List α
  | [] => []
  | x :: xs => insertSorted le x (sortByLe le xs)

/-- `CrosswordGenerator.sortWordsByIntersectionPotential` (on `[...words]`,
a fresh copy of the input). -/
def sortWordsByIntersectionPotential (ws : List Word) : List Word :=
  sortByLe wordCmpLe ws

/-- A candidate position as produced by `findValidPositions`. -/
structure Pos where
  row : Int
  col : Int
  isHorizontal : Bool
deriving DecidableEq, Repr

/-- `CrosswordGenerator.findValidPositions`: all fitting placements, the
horizontal sweep (row-major) followed by the vertical sweep. -/
def findValidPositions (w : Word) (g : Grid) : List Pos :=
  let len := w.length
  let hcands := (List.range (grows g)).flatMap fun r =>
    (List.range (gcols g + 1 - len)).map fun c => Pos.mk r c true
  let vcands := (List.range (grows g + 1 - len)).flatMap fun r =>
    (List.range (gcols g)).map fun c => Pos.mk r c false
  (hcands ++ vcands).filter fun p => canPlaceWord w p.row p.col p.isHorizontal g

/-- `CrosswordGenerator.countIntersections`: covered cells already filled. -/
def countIntersections (w : Word) (row col : Int) (isHorizontal : Bool) (g : Grid) : Nat :=
  ((List.range w.length).filter fun (i : Nat) =>
    isFilledCell g (if isHorizontal then row else row + (i : Int))
      (if isHorizontal then col + (i : Int) else col)).length

/-- The accumulator loop of `CrosswordGenerator.calculatePositionScore`:
the intersection count and the middle-preference total. -/
def positionScoreLoop (w : Word) (row col : Int) (isHorizontal : Bool) (g : Grid) :
    Nat × ℚ :=
  (List.range w.length).foldl
    (fun acc (i : Nat) =>
      if isFilledCell g (if isHorizontal then row else row + (i : Int))
          (if isHorizontal then col + (i : Int) else col) then
        (acc.1 + 1, acc.2 + middlePref i w.length)
      else acc)
    (0, 0)

/-- `CrosswordGenerator.calculatePositionScore`; `none` models the JS NaN
from `0/0` when a one-letter word has an intersection. -/
def calculatePositionScore (w : Word) (row col : Int) (isHorizontal : Bool) (g : Grid) :
    Option ℚ :=
  let p := positionScoreLoop w row col isHorizontal g
  if w.length = 1 ∧ 1 ≤ p.1 then none else some ((p.1 : ℚ) * 10 + p.2 * 100)

/-- `comparator(a, b) ≤ 0` for the position sort of `tryPlaceWord`
(descending score); a NaN comparator value is treated as `+0` per
ECMAScript, making the two positions compare as equal. -/
def posLe (w : Word) (g : Grid) (a b : Pos) : Bool :=
  match calculatePositionScore w a.row a.col a.isHorizontal g,
      calculatePositionScore w b.row b.col b.isHorizontal g with
  | some x, some y => decide (y ≤ x)
  | _, _ => true

/-- A committed placement (`this.placedWords` entry). -/
structure PlacedWord where
  word : Word
  row : Int
  col : Int
  isHorizontal : Bool
  clueNumber : Nat
deriving DecidableEq, Repr

/-- The mutable engine state (`this.grid`, `this.placedWords`,
`this.clueNumber`). -/
structure GenState where
  grid : Grid
  placedWords : List PlacedWord
  clueNumber : Nat
deriving Repr, DecidableEq

/-- `CrosswordGenerator.placeWord`: validate, then write the letters and
record the placement; `none` models the `false` (rejected) return. -/
def placeWord (w : Word) (row col : Int) (isHorizontal : Bool) (s : GenState) :
    Option GenState :=
  if ¬ canPlaceWord w row col isHorizontal s.grid then none
  else if 0 < s.placedWords.length ∧ ¬ hasValidWordBoundaries w row col isHorizontal s.grid
    then none
  else some
    { grid := writeWord s.grid w row col isHorizontal
      placedWords := s.placedWords ++ [⟨w, row, col, isHorizontal, s.clueNumber⟩]
      clueNumber := s.clueNumber + 1 }

/-- The best-first commit loop of `CrosswordGenerator.tryPlaceWord`. -/
def tryPositions (w : Word) (s : GenState) : List Pos → Option GenState
  | [] => none
  | p :: ps =>
      match placeWord w p.row p.col p.isHorizontal s with
      | some s' => some s'
      | none => tryPositions w s ps

/-- `CrosswordGenerator.tryPlaceWord`: search, sort by descending position
score, then commit the first position that validates. -/
def tryPlaceWord (w : Word) (s : GenState) : Option GenState :=
  tryPositions w s (sortByLe (posLe w s.grid) (findValidPositions w s.grid))

/-- The requeue loop of `CrosswordGenerator.placeWords`, with the fuel
`maxAttempts - attempts`; the returned `Nat` is the number of loop
iterations run (each iteration does `attempts++` in the source) and the
returned list is the final content of the work queue. -/
def placeLoop (s : GenState) (queue : List Word) : Nat → GenState × List Word × Nat
  | 0 => (s, queue, 0)
  | fuel + 1 =>
      match queue with
      | [] => (s, queue, 0)
      | w :: rest =>
          match tryPlaceWord w s with
          | some s' =>
              let r := placeLoop s' rest fuel
              (r.1, r.2.1, r.2.2 + 1)
          | none =>
              let r := placeLoop s (rest ++ [w]) fuel
              (r.1, r.2.1, r.2.2 + 1)

/-- `CrosswordGenerator.placeWords`: unconditional centred seed placement
of the first word (its success value is discarded), then the requeue loop
with budget `remaining × 100`. -/
def placeWords (words : List Word) (s : GenState) : GenState × List Word × Nat :=
  match words with
  | [] => (s, [], 0)
  | w0 :: rest =>
      let centerRow : Int := ((grows s.grid : Int)).fdiv 2
      let centerCol : Int := ((gcols s.grid : Int) - (w0.length : Int)).fdiv 2
      let s1 := (placeWord w0 centerRow centerCol true s).getD s
      placeLoop s1 rest (rest.length * 100)

/-- The bounding box computed by `CrosswordGenerator.trimGrid`. -/
structure Bounds where
  minRow : Int
  maxRow : Int
  minCol : Int
  maxCol : Int
deriving DecidableEq, Repr

/-- All `(row, col)` index pairs of the grid in row-major order. -/
def allPositions (g : Grid) : List (Nat × Nat) :=
  (List.range (grows g)).flatMap fun r => (List.range (gcols g)).map fun c => (r, c)

/-- One cell visit of the bounds scan of `CrosswordGenerator.trimGrid`. -/
def trimStep (g : Grid) (b : Bounds) (rc : Nat × Nat) : Bounds :=
  if isFilledCell g rc.1 rc.2 then
    ⟨min b.minRow rc.1, max b.maxRow rc.1, min b.minCol rc.2, max b.maxCol rc.2⟩
  else b

/-- The bounds-scanning double loop of `CrosswordGenerator.trimGrid`. -/
def trimBounds (g : Grid) : Bounds :=
  (allPositions g).foldl (trimStep g) ⟨(grows g : Int), -1, (gcols g : Int), -1⟩

/-- `CrosswordGenerator.trimGrid`: replace the grid by the bounding-box
sub-rectangle of its filled cells and rebase all word coordinates; leave
everything unchanged when no cell is filled. -/
def trimGrid (s : GenState) : GenState :=
  let b := trimBounds s.grid
  if b.minRow ≤ b.maxRow ∧ b.minCol ≤ b.maxCol then
    { grid := ((s.grid.drop b.minRow.toNat).take (b.maxRow - b.minRow + 1).toNat).map
        fun row => (row.drop b.minCol.toNat).take (b.maxCol - b.minCol + 1).toNat
      placedWords := s.placedWords.map fun pw =>
        { pw with row := pw.row - b.minRow, col := pw.col - b.minCol }
      clueNumber := s.clueNumber }
  else s

/-- `Utils.generateClue`. -/
def generateClue (w : Word) : String :=
  "A " ++ toString w.length ++ "-letter word"

/-- `CrosswordGenerator.countFilledCells`. -/
def countFilledCells (g : Grid) : Nat :=
  ((allPositions g).filter fun rc => isFilledCell g rc.1 rc.2).length

/-- An entry of the across/down clue lists. -/
structure ClueEntry where
  number : Nat
  word : Word
  clue : String
  row : Int
  col : Int
deriving DecidableEq, Repr

/-- The `statistics` block of the puzzle object. -/
structure Statistics where
  totalWords : Nat
  acrossWords : Nat
  downWords : Nat
  gridRows : Nat
  gridCols : Nat
  totalCells : Nat
  filledCells : Nat
deriving DecidableEq, Repr

/-- The puzzle object returned by `generate`. -/
structure Puzzle where
  grid : Grid
  words : List PlacedWord
  across : List ClueEntry
  down : List ClueEntry
  statistics : Statistics
deriving Repr

/-- `CrosswordGenerator.createPuzzleData`. -/
def createPuzzleData (s : GenState) : Puzzle :=
  let acrossWords := s.placedWords.filter fun pw => pw.isHorizontal
  let downWords := s.placedWords.filter fun pw => !pw.isHorizontal
  { grid := s.grid
    words := s.placedWords
    across := acrossWords.map fun pw =>
      ⟨pw.clueNumber, pw.word, generateClue pw.word, pw.row, pw.col⟩
    down := downWords.map fun pw =>
      ⟨pw.clueNumber, pw.word, generateClue pw.word, pw.row, pw.col⟩
    statistics :=
      { totalWords := s.placedWords.length
        acrossWords := acrossWords.length
        downWords := downWords.length
        gridRows := grows s.grid
        gridCols := gcols s.grid
        totalCells := grows s.grid * gcols s.grid
        filledCells := countFilledCells s.grid } }

/-- `CrosswordGenerator.generate`: the full pipeline; the `.error` value
models the thrown `Error("No words provided")`. -/
def generate (words : List Word) : Except String Puzzle :=
  if words = [] then .error "No words provided"
  else
    let sortedWords := sortWordsByIntersectionPotential words
    let gridSize := calculateGridSize sortedWords
    let s0 : GenState := ⟨initializeGrid gridSize.1 gridSize.2, [], 1⟩
    let r := placeWords sortedWords s0
    .ok (createPuzzleData (trimGrid r.1))

/-- Replaying a placed-word list onto a fresh empty grid of the given
dimensions, using the same letter-writing loop as `placeWord`. -/
def replayGrid (rows cols : Nat) (pws : List PlacedWord) : Grid :=
  pws.foldl (fun g pw => writeWord g pw.word pw.row pw.col pw.isHorizontal)
    (initializeGrid rows cols)

/-- The cell covered by letter `i` of a placed word. -/
def cellOf (pw : PlacedWord) (i : Nat) : Int × Int :=
  posOf pw.row pw.col pw.isHorizontal i

/-- The cells covered by a placed word. -/
def wordCells (pw : PlacedWord) : List (Int × Int) :=
  (List.range pw.word.length).map (cellOf pw)

/-- A rectangular grid of the given dimensions (every generated grid is
rectangular; the invariant the embedding maintains along the pipeline). -/
def GridShape (g : Grid) (R C : Nat) : Prop :=
  g.length = R ∧ ∀ row ∈ g, row.length = C

/-- The placed word covers cell `(r, c)` with letter `ch`. -/
def Covers (pw : PlacedWord) (r c : Int) (ch : Char) : Prop :=
  ∃ i < pw.word.length, cellOf pw i = (r, c) ∧ pw.word.getD i ' ' = ch

/-- The letter a placed word puts at cell `(r, c)`, when it covers it. -/
def letterAtCell (pw : PlacedWord) (r c : Int) : Option Char :=
  (List.range pw.word.length).findSome? fun i =>
    if cellOf pw i = (r, c) then some (pw.word.getD i ' ') else none

/-- The letter the replay of a placed-word list leaves at `(r, c)`:
the last covering word's letter (later writes win), `none` if uncovered. -/
def coverVal (pws : List PlacedWord) (r c : Int) : Option Char :=
  pws.foldl
    (fun v pw =>
      match letterAtCell pw r c with
      | some ch => some ch
      | none => v)
    none

/-- The engine-state invariant: the grid records every placed word's
letters at its cells, and every letter on the grid comes from some placed
word. -/
def GoodState (s : GenState) : Prop :=
  (∀ pw ∈ s.placedWords, ∀ i < pw.word.length,
      cellAt s.grid (cellOf pw i).1 (cellOf pw i).2 = some (some (pw.word.getD i ' '))) ∧
  (∀ (r c : Int) (ch : Char), cellAt s.grid r c = some (some ch) →
      ∃ pw ∈ s.placedWords, Covers pw r c ch)

/-- A heap of JS arrays, for observing which array objects `generate`
mutates: index `r` holds the current contents of array object `r`. -/
abbrev JsHeap := List (List Word)

/-- `generate` instrumented against the array heap: the caller's `words`
array lives at index `r`; `[...words].sort(...)` allocates a fresh array
(appended at the end of the heap) holding the sorted copy, and the
`shift`/`push` mutations of `placeWords` are applied to that fresh array,
whose final contents are the leftover queue. -/
def generateOnHeap (h : JsHeap) (r : Nat) : JsHeap × Except String Puzzle :=
  let ws := h.getD r []
  if ws = [] then (h, .error "No words provided")
  else
    let sortedWords := sortWordsByIntersectionPotential ws
    let h1 := h ++ [sortedWords]
    let sortedRef := h.length
    let gridSize := calculateGridSize sortedWords
    let s0 : GenState := ⟨initializeGrid gridSize.1 gridSize.2, [], 1⟩
    let res := placeWords sortedWords s0
    (h1.set sortedRef res.2.1, .ok (createPuzzleData (trimGrid res.1)))

/-- The middle-bias formula as the spec words it:
`middleBias(p) = 1 - |2p/(L-1) - 1|` for index `p` of a length-`L` word. -/
def specMiddleBias (p L : Nat) : ℚ :=
  1 - |2 * (p : ℚ) / ((L : ℚ) - 1) - 1|

/-! ## General lemmas -/

theorem placeLoop_attempts_le :
    ∀ (fuel : Nat) (s : GenState) (queue : List Word),
      (placeLoop s queue fuel).2.2 ≤ fuel := by
  intro fuel
  induction fuel with
  | zero => intro s queue; simp [placeLoop]
  | succ n ih =>
      intro s queue
      cases queue with
      | nil => simp [placeLoop]
      | cons w rest =>
          simp only [placeLoop]
          cases h : tryPlaceWord w s with
          | none => simpa using ih s (rest ++ [w])
          | some s' => simpa using ih s' rest

/-- C3: the requeue loop of `placeWords` runs at most
`remainingWordCount × 100` iterations (the returned counter counts every
iteration, committing or requeueing alike), and `generate` therefore
terminates with a puzzle on every non-empty input list. -/
theorem generate_terminates_within_budget :
    (∀ (s : GenState) (queue : List Word) (fuel : Nat),
        (placeLoop s queue fuel).2.2 ≤ fuel) ∧
    (∀ (s : GenState) (w0 : Word) (rest : List Word),
        (placeWords (w0 :: rest) s).2.2 ≤ rest.length * 100) ∧
    (∀ ws : List Word, ws ≠ [] → ∃ p, generate ws = Except.ok p) := by
  refine ⟨fun s queue fuel => placeLoop_attempts_le fuel s queue, ?_, ?_⟩
  · intro s w0 rest
    simp only [placeWords]
    exact placeLoop_attempts_le _ _ _
  · intro ws h
    unfold generate
    rw [if_neg h]
    exact ⟨_, rfl⟩

theorem generate_terminates_within_budget_witness :
    (placeLoop ⟨initializeGrid 2 2, [], 1⟩ [['h','i']] 100).2.2 ≤ 100 ∧
    (placeWords [['h','i']] ⟨initializeGrid 2 2, [], 1⟩).2.2 ≤ ([] : List Word).length * 100 ∧
    ∃ p, generate [['h','i']] = Except.ok p :=
  ⟨generate_terminates_within_budget.1 _ _ 100,
   generate_terminates_within_budget.2.1 _ ['h','i'] [],
   generate_terminates_within_budget.2.2 _ (by simp)⟩

/-- C4: `generate` fails with the error "No words provided" exactly on the
empty input list, and on every non-empty list it returns a puzzle (the
error is raised before any grid or state work, so nothing else happens in
the error case). -/
theorem generate_error_iff (ws : List Word) :
    (generate ws = Except.error "No words provided" ↔ ws = []) ∧
    (ws ≠ [] → ∃ p, generate ws = Except.ok p) := by
  by_cases h : ws = [] <;> simp [generate, h]

theorem generate_error_iff_witness :
    (generate [] = Except.error "No words provided") ∧
    (∃ p, generate [['h','i']] = Except.ok p) :=
  ⟨(generate_error_iff []).1.mpr rfl, (generate_error_iff [['h','i']]).2 (by simp)⟩

/-- C10: the caller's input array is never mutated by `generate`: in the
heap-instrumented model the destructive queue operations act on the fresh
array allocated by `[...words]`, so the caller's array slot holds exactly
its original contents after the call. -/
theorem generateOnHeap_preserves_input (h : JsHeap) (r : Nat) (hr : r < h.length) :
    (generateOnHeap h r).1.getD r [] = h.getD r [] := by
  simp only [generateOnHeap]
  by_cases hw : h.getD r [] = []
  · rw [if_pos hw]
  · rw [if_neg hw]
    rw [List.getD_eq_getElem?_getD, List.getD_eq_getElem?_getD,
      List.getElem?_set_ne (by omega), List.getElem?_append_left hr]

theorem generateOnHeap_preserves_input_witness :
    (0 < ([[['h','i']]] : JsHeap).length) ∧
    (generateOnHeap [[['h','i']]] 0).1.getD 0 [] = ([[['h','i']]] : JsHeap).getD 0 [] :=
  ⟨by decide, generateOnHeap_preserves_input [[['h','i']]] 0 (by decide)⟩

/-! ## Sorting lemmas -/

theorem qabs_eq_abs (x : ℚ) : qabs x = |x| := by
  unfold qabs
  by_cases h : x < 0
  · rw [if_pos h, abs_of_neg h]
  · rw [if_neg h, abs_of_nonneg (not_lt.mp h)]

theorem insertSorted_perm (le : α → α → Bool) (x : α) :
    ∀ l : List α, (insertSorted le x l).Perm (x :: l) := by
  intro l
  induction l with
  | nil => simp [insertSorted]
  | cons y ys ih =>
      simp only [insertSorted]
      split
      · exact List.Perm.refl _
      · exact (ih.cons y).trans (List.Perm.swap x y ys)

theorem sortByLe_perm (le : α → α → Bool) :
    ∀ l : List α, (sortByLe le l).Perm l := by
  intro l
  induction l with
  | nil => simp [sortByLe]
  | cons x xs ih =>
      simp only [sortByLe]
      exact (insertSorted_perm le x (sortByLe le xs)).trans (ih.cons x)

theorem chain'_insertSorted (le : α → α → Bool)
    (total : ∀ a b, le a b = true ∨ le b a = true) (x : α) :
    ∀ l : List α, List.Chain' (fun a b => le a b = true) l →
      List.Chain' (fun a b => le a b = true) (insertSorted le x l) := by
  intro l
  induction l with
  | nil => intro _; simp [insertSorted]
  | cons y ys ih =>
      intro h
      simp only [insertSorted]
      split
      · exact List.Chain'.cons (by assumption) h
      · have hyx : le y x = true := by
          rcases total x y with h1 | h1
          · exact absurd h1 (by assumption)
          · exact h1
        cases ys with
        | nil => simpa [insertSorted] using hyx
        | cons z zs =>
            have hchain := (List.chain'_cons.mp h).2
            have hrel := (List.chain'_cons.mp h).1
            have htail := ih hchain
            simp only [insertSorted] at htail ⊢
            split
            · exact List.Chain'.cons hyx (List.Chain'.cons (by assumption) hchain)
            · exact List.Chain'.cons hrel (by simpa [insertSorted, *] using htail)

theorem chain'_sortByLe (le : α → α → Bool)
    (total : ∀ a b, le a b = true ∨ le b a = true) :
    ∀ l : List α, List.Chain' (fun a b => le a b = true) (sortByLe le l) := by
  intro l
  induction l with
  | nil => simp [sortByLe]
  | cons x xs ih => exact chain'_insertSorted le total x _ ih

theorem wordCmpLe_total (a b : Word) : wordCmpLe a b = true ∨ wordCmpLe b a = true := by
  unfold wordCmpLe
  cases ha : calculateWordIntersectionScore a with
  | none => cases hb : calculateWordIntersectionScore b <;> simp [Nat.le_total]
  | some x =>
      cases hb : calculateWordIntersectionScore b with
      | none => simp [Nat.le_total]
      | some y =>
          have habs : qabs (y - x) = qabs (x - y) := by
            rw [qabs_eq_abs, qabs_eq_abs, abs_sub_comm]
          by_cases hgt : qabs (x - y) > (10 : ℚ)⁻¹
          · have hgt2 : qabs (y - x) > (10 : ℚ)⁻¹ := by rw [habs]; exact hgt
            rcases le_total y x with hle | hle
            · left; simp [hgt, hle]
            · right; simp [hgt2, hle]
          · have hgt2 : ¬ qabs (y - x) > (10 : ℚ)⁻¹ := by rw [habs]; exact hgt
            rcases Nat.le_total b.length a.length with hle | hle
            · left; simp [hgt, hle]
            · right; simp [hgt2, hle]

theorem foldl_add_map_sum (f : ℕ → ℚ) :
    ∀ (l : List ℕ) (a : ℚ), l.foldl (fun acc i => acc + f i) a = a + (l.map f).sum := by
  intro l
  induction l with
  | nil => simp
  | cons x xs ih => intro a; simp [ih, add_assoc]

theorem middlePref_eq_spec (i L : Nat) : middlePref i L = specMiddleBias i L := by
  unfold middlePref specMiddleBias
  rw [qabs_eq_abs]
  have h : (2 : ℚ) * i / ((L : ℚ) - 1) - 1 = ((i : ℚ) / ((L : ℚ) - 1) - 1/2) * 2 := by
    ring
  rw [h, abs_mul]
  norm_num

theorem calculateWordIntersectionScore_eq_spec (w : Word) (h : w.length ≠ 1) :
    calculateWordIntersectionScore w =
      some (((List.range w.length).map fun p =>
        letterFrequency (w.getD p ' ').toUpper * specMiddleBias p w.length).sum) := by
  unfold calculateWordIntersectionScore
  rw [if_neg h, foldl_add_map_sum]
  simp [middlePref_eq_spec]

/-- C7 is false as stated: the comparator treats score differences of at
most `0.1` as ties (broken by length), so `"zzzz"` (score `7/75`) is
sorted in front of `"zjz"` (score `1/10 > 7/75`), violating descending
score order on unequal scores. -/
theorem sortWords_not_score_descending :
    sortWordsByIntersectionPotential [['z','j','z'], ['z','z','z','z']] =
      [['z','z','z','z'], ['z','j','z']] ∧
    calculateWordIntersectionScore ['z','z','z','z'] = some (7/75) ∧
    calculateWordIntersectionScore ['z','j','z'] = some (1/10) ∧
    ((7 : ℚ)/75 < 1/10) := by
  with_unfolding_all decide

/-- C7 (amended): each word's score is the sum over its letters of
`frequency(letter) × middleBias(position)` with
`middleBias(p) = 1 − |2p/(L−1) − 1|` (defined for `L ≠ 1`; for `L = 1`
the division `0/0` yields NaN in the source), and the word list is
stably sorted under the source's comparator, which orders by descending
score only when two scores differ by more than `0.1` and otherwise by
descending length; the sorted output is a permutation of the input,
consecutive elements satisfying that comparator. -/
theorem sortWords_sorted_by_comparator :
    (∀ w : Word, w.length ≠ 1 →
        calculateWordIntersectionScore w =
          some (((List.range w.length).map fun p =>
            letterFrequency (w.getD p ' ').toUpper * specMiddleBias p w.length).sum)) ∧
    (∀ ws : List Word, (sortWordsByIntersectionPotential ws).Perm ws) ∧
    (∀ ws : List Word,
        List.Chain' (fun a b => wordCmpLe a b = true) (sortWordsByIntersectionPotential ws)) :=
  ⟨calculateWordIntersectionScore_eq_spec, sortByLe_perm _,
   fun ws => chain'_sortByLe _ wordCmpLe_total ws⟩

theorem sortWords_sorted_by_comparator_witness :
    (['c','a','t'] : Word).length ≠ 1 ∧
    calculateWordIntersectionScore ['c','a','t'] =
      some (((List.range (['c','a','t'] : Word).length).map fun p =>
        letterFrequency ((['c','a','t'] : Word).getD p ' ').toUpper *
          specMiddleBias p (['c','a','t'] : Word).length).sum) :=
  ⟨by decide, sortWords_sorted_by_comparator.1 ['c','a','t'] (by decide)⟩

/-! ## Position-score lemmas -/

theorem foldl_count_sum (p : ℕ → Bool) (f : ℕ → ℚ) :
    ∀ (l : List ℕ) (a : ℕ) (b : ℚ),
      l.foldl (fun acc i => if p i then (acc.1 + 1, acc.2 + f i) else acc) (a, b) =
      (a + (l.filter p).length, b + ((l.filter p).map f).sum) := by
  intro l
  induction l with
  | nil => simp
  | cons x xs ih =>
      intro a b
      by_cases hx : p x
      · simp [hx, ih, add_assoc, Nat.add_comm 1]
      · simp [hx, ih]

theorem calculatePositionScore_isSome (w : Word) (row col : Int) (isH : Bool) (g : Grid)
    (h : w.length ≠ 1) :
    calculatePositionScore w row col isH g =
      some (((positionScoreLoop w row col isH g).1 : ℚ) * 10 +
        (positionScoreLoop w row col isH g).2 * 100) := by
  unfold calculatePositionScore
  rw [if_neg (by tauto)]

theorem calculatePositionScore_formula (w : Word) (row col : Int) (isH : Bool) (g : Grid)
    (h : w.length ≠ 1) :
    calculatePositionScore w row col isH g =
      some (10 * (countIntersections w row col isH g : ℚ) +
        100 * (((List.range w.length).filter fun (i : Nat) =>
            isFilledCell g (if isH then row else row + (i : Int))
              (if isH then col + (i : Int) else col)).map
          fun i => specMiddleBias i w.length).sum) := by
  rw [calculatePositionScore_isSome w row col isH g h]
  unfold positionScoreLoop countIntersections
  rw [foldl_count_sum]
  simp only [Nat.zero_add, zero_add]
  congr 1
  simp only [middlePref_eq_spec]
  ring

theorem posLe_total (w : Word) (g : Grid) (a b : Pos) :
    posLe w g a b = true ∨ posLe w g b a = true := by
  unfold posLe
  cases calculatePositionScore w a.row a.col a.isHorizontal g with
  | none => simp
  | some x =>
      cases calculatePositionScore w b.row b.col b.isHorizontal g with
      | none => simp
      | some y => simpa using le_total y x

theorem posLe_iff (w : Word) (g : Grid) (h : w.length ≠ 1) (a b : Pos) :
    posLe w g a b = true ↔
      (calculatePositionScore w b.row b.col b.isHorizontal g).getD 0 ≤
        (calculatePositionScore w a.row a.col a.isHorizontal g).getD 0 := by
  unfold posLe
  rw [calculatePositionScore_isSome w a.row a.col a.isHorizontal g h,
    calculatePositionScore_isSome w b.row b.col b.isHorizontal g h]
  simp

/-- C9: the position-quality score is
`10 × intersectionCount + 100 × Σ middleBias(positionInWord)` over exactly
the letter positions landing on already-filled cells (stated for words of
length ≠ 1, where the `L−1` denominator of `middleBias` is nonzero), and
`tryPlaceWord` attempts its commits along the candidate list sorted in
descending order of this score (a permutation of `findValidPositions`). -/
theorem positionScore_formula_and_order :
    (∀ (w : Word) (row col : Int) (isH : Bool) (g : Grid), w.length ≠ 1 →
        calculatePositionScore w row col isH g =
          some (10 * (countIntersections w row col isH g : ℚ) +
            100 * (((List.range w.length).filter fun (i : Nat) =>
                isFilledCell g (if isH then row else row + (i : Int))
                  (if isH then col + (i : Int) else col)).map
              fun i => specMiddleBias i w.length).sum)) ∧
    (∀ (w : Word) (s : GenState),
        tryPlaceWord w s =
          tryPositions w s (sortByLe (posLe w s.grid) (findValidPositions w s.grid))) ∧
    (∀ (w : Word) (g : Grid),
        (sortByLe (posLe w g) (findValidPositions w g)).Perm (findValidPositions w g)) ∧
    (∀ (w : Word) (g : Grid), w.length ≠ 1 →
        (sortByLe (posLe w g) (findValidPositions w g)).Pairwise fun a b =>
          (calculatePositionScore w b.row b.col b.isHorizontal g).getD 0 ≤
            (calculatePositionScore w a.row a.col a.isHorizontal g).getD 0) := by
  refine ⟨calculatePositionScore_formula, fun w s => rfl, fun w g => sortByLe_perm _ _, ?_⟩
  intro w g h
  have hchain := chain'_sortByLe (posLe w g) (posLe_total w g) (findValidPositions w g)
  have hchain2 : List.Chain'
      (fun a b => (calculatePositionScore w b.row b.col b.isHorizontal g).getD 0 ≤
        (calculatePositionScore w a.row a.col a.isHorizontal g).getD 0)
      (sortByLe (posLe w g) (findValidPositions w g)) :=
    hchain.imp fun a b hab => (posLe_iff w g h a b).mp hab
  haveI : IsTrans Pos (fun a b =>
      (calculatePositionScore w b.row b.col b.isHorizontal g).getD 0 ≤
        (calculatePositionScore w a.row a.col a.isHorizontal g).getD 0) :=
    ⟨fun _ _ _ hab hbc => le_trans hbc hab⟩
  exact List.chain'_iff_pairwise.mp hchain2

theorem positionScore_formula_and_order_witness :
    (['h','i'] : Word).length ≠ 1 ∧
    calculatePositionScore ['h','i'] 0 0 true (initializeGrid 2 2) =
      some (10 * (countIntersections ['h','i'] 0 0 true (initializeGrid 2 2) : ℚ) +
        100 * (((List.range (['h','i'] : Word).length).filter fun (i : Nat) =>
            isFilledCell (initializeGrid 2 2) (if true then 0 else 0 + (i : Int))
              (if true then 0 + (i : Int) else 0)).map
          fun i => specMiddleBias i (['h','i'] : Word).length).sum) :=
  ⟨by decide, positionScore_formula_and_order.1 ['h','i'] 0 0 true (initializeGrid 2 2)
    (by decide)⟩

/-! ## Boundary-validation lemmas -/

theorem hvwbAux_eq_true (w : Word) (row col : Int) (isH : Bool) (g : Grid) :
    ∀ (l : List Nat) (acc : Bool), hvwbAux w row col isH g l acc = true →
      acc = true ∨ ∃ i ∈ l, hvwbStep w row col isH g i = some true := by
  intro l
  induction l with
  | nil => intro acc h; exact Or.inl h
  | cons i rest ih =>
      intro acc h
      simp only [hvwbAux] at h
      cases hstep : hvwbStep w row col isH g i with
      | none => rw [hstep] at h; exact absurd h (by simp)
      | some b =>
          rw [hstep] at h
          rcases ih _ h with hacc | ⟨j, hj, hjs⟩
          · rcases Bool.or_eq_true_iff.mp hacc with ha | hb
            · exact Or.inl ha
            · exact Or.inr ⟨i, List.mem_cons_self i rest, by rw [hstep, hb]⟩
          · exact Or.inr ⟨j, List.mem_cons_of_mem _ hj, hjs⟩

theorem hvwbStep_some_true (w : Word) (row col : Int) (isH : Bool) (g : Grid) (i : Nat)
    (h : hvwbStep w row col isH g i = some true) :
    cellAt g (if isH then row else row + (i : Int)) (if isH then col + (i : Int) else col) =
        some (some (w.getD i ' ')) ∨
      (cellAt g (if isH then row else row + (i : Int))
          (if isH then col + (i : Int) else col) = some none ∧
        ∃ rc ∈ getAdjacentPositions (if isH then row else row + (i : Int))
            (if isH then col + (i : Int) else col) isH,
          isFilledCell g rc.1 rc.2 = true) := by
  revert h
  simp only [hvwbStep]
  cases hcell : cellAt g (if isH then row else row + (i : Int))
      (if isH then col + (i : Int) else col) with
  | none => intro h; simp at h
  | some cv =>
      cases cv with
      | some ex =>
          intro h
          replace h : (if ex = w.getD i ' ' then some true else (none : Option Bool)) =
              some true := h
          by_cases heq : ex = w.getD i ' '
          · subst heq; exact Or.inl rfl
          · rw [if_neg heq] at h; exact absurd h (by simp)
      | none =>
          intro h
          replace h :
              (if ((getAdjacentPositions (if isH then row else row + (i : Int))
                      (if isH then col + (i : Int) else col) isH).all fun rc =>
                    !isFilledCell g rc.1 rc.2 || hasWordEndingAt rc.1 rc.2 g (!isH)) = true
                then
                  some ((getAdjacentPositions (if isH then row else row + (i : Int))
                      (if isH then col + (i : Int) else col) isH).any fun rc =>
                    isFilledCell g rc.1 rc.2)
                else none) = some true := h
          by_cases hall : ((getAdjacentPositions (if isH then row else row + (i : Int))
              (if isH then col + (i : Int) else col) isH).all fun rc =>
            !isFilledCell g rc.1 rc.2 || hasWordEndingAt rc.1 rc.2 g (!isH)) = true
          · rw [if_pos hall] at h
            exact Or.inr ⟨rfl, List.any_eq_true.mp (Option.some.inj h)⟩
          · rw [if_neg hall] at h; exact absurd h (by simp)

/-- C1 (amended): a word committed by `placeWord` onto a puzzle that
already holds at least one word has, at some letter position, either a
true matching-letter overlap with an already-filled cell, or an empty
cell whose perpendicular neighbour is already filled — the adjacency case
also satisfies the engine's connectivity requirement, so a letter overlap
alone is not guaranteed. -/
theorem placeWord_connects (w : Word) (row col : Int) (isH : Bool) (s s' : GenState)
    (hne : 0 < s.placedWords.length) (h : placeWord w row col isH s = some s') :
    ∃ i < w.length,
      cellAt s.grid (if isH then row else row + (i : Int))
          (if isH then col + (i : Int) else col) = some (some (w.getD i ' ')) ∨
        (cellAt s.grid (if isH then row else row + (i : Int))
            (if isH then col + (i : Int) else col) = some none ∧
          ∃ rc ∈ getAdjacentPositions (if isH then row else row + (i : Int))
              (if isH then col + (i : Int) else col) isH,
            isFilledCell s.grid rc.1 rc.2 = true) := by
  unfold placeWord at h
  split at h
  · exact absurd h (by simp)
  · split at h
    · exact absurd h (by simp)
    · rename_i hcan hbad
      have hv : hasValidWordBoundaries w row col isH s.grid = true := by
        by_contra hv
        exact hbad ⟨hne, fun hvv => hv hvv⟩
      unfold hasValidWordBoundaries at hv
      rcases hvwbAux_eq_true w row col isH s.grid _ _ hv with habs | ⟨i, hi, hstep⟩
      · exact absurd habs (by simp)
      · exact ⟨i, List.mem_range.mp hi, hvwbStep_some_true w row col isH s.grid i hstep⟩

theorem placeWord_connects_witness :
    (0 < ([⟨['e','e'], 4, 3, true, 1⟩] : List PlacedWord).length) ∧
    ∃ i < (['q','q'] : Word).length,
      cellAt (writeWord (initializeGrid 9 9) ['e','e'] 4 3 true)
          (if false then 3 else 3 + (i : Int)) (if false then 5 + (i : Int) else 5) =
          some (some ((['q','q'] : Word).getD i ' ')) ∨
        (cellAt (writeWord (initializeGrid 9 9) ['e','e'] 4 3 true)
            (if false then 3 else 3 + (i : Int)) (if false then 5 + (i : Int) else 5) =
            some none ∧
          ∃ rc ∈ getAdjacentPositions (if false then 3 else 3 + (i : Int))
              (if false then 5 + (i : Int) else 5) false,
            isFilledCell (writeWord (initializeGrid 9 9) ['e','e'] 4 3 true) rc.1 rc.2 =
              true) :=
  ⟨by decide,
   placeWord_connects ['q','q'] 3 5 false
     ⟨writeWord (initializeGrid 9 9) ['e','e'] 4 3 true, [⟨['e','e'], 4, 3, true, 1⟩], 2⟩
     ⟨writeWord (writeWord (initializeGrid 9 9) ['e','e'] 4 3 true) ['q','q'] 3 5 false,
       [⟨['e','e'], 4, 3, true, 1⟩, ⟨['q','q'], 3, 5, false, 2⟩], 3⟩
     (by decide) (by with_unfolding_all decide)⟩

/-- C1 is false as stated: on the input `["ee", "qq"]` the engine places
`"qq"` vertically so that only its lower letter sits beside the end of
`"ee"` — the two placed words share no cell at all, so the second placed
word has no letter position over a previously filled cell; it is
connected to the puzzle only by side-adjacency. -/
theorem generate_places_disconnected_word :
    (generate [['e','e'], ['q','q']]).toOption.map
      (fun p => p.words.map fun pw => (pw.word, pw.row, pw.col, pw.isHorizontal, pw.clueNumber)) =
      some [(['e','e'], 1, 0, true, 1), (['q','q'], 0, 2, false, 2)] ∧
    (wordCells ⟨['q','q'], 0, 2, false, 2⟩).inter (wordCells ⟨['e','e'], 1, 0, true, 1⟩) =
      [] :=
  ⟨by with_unfolding_all decide, by decide⟩

/-! ## Seed-placement lemmas -/

theorem le_foldl_max (l : List Word) :
    ∀ a : Nat, a ≤ l.foldl (fun m w => max m w.length) a := by
  induction l with
  | nil => simp
  | cons x xs ih => intro a; exact le_trans (le_max_left a x.length) (ih _)

theorem mem_le_foldl_max (l : List Word) :
    ∀ (a : Nat) (w : Word), w ∈ l → w.length ≤ l.foldl (fun m w => max m w.length) a := by
  induction l with
  | nil => intro a w hw; cases hw
  | cons x xs ih =>
      intro a w hw
      rcases List.mem_cons.mp hw with h | h
      · subst h; exact le_trans (le_max_right a w.length) (le_foldl_max xs _)
      · exact ih _ w h

theorem calculateGridSize_bounds (ws : List Word) (h : ws ≠ []) (w : Word) (hw : w ∈ ws)
    (hw50 : w.length ≤ 50) :
    w.length ≤ (calculateGridSize ws).1 ∧
      (calculateGridSize ws).1 = (calculateGridSize ws).2 ∧
      1 ≤ (calculateGridSize ws).1 := by
  unfold calculateGridSize
  rw [if_neg h]
  have hm : w.length ≤ ws.foldl (fun m w => max m w.length) 0 := mem_le_foldl_max ws 0 w hw
  have hb : ws.foldl (fun m w => max m w.length) 0 + 4 ≤
      max (ws.foldl (fun m w => max m w.length) 0 + 4)
        (ceilSqrt (ws.length * ws.foldl (fun m w => max m w.length) 0 * 3)) :=
    le_max_left _ _
  refine ⟨?_, rfl, ?_⟩ <;> simp only [] <;> omega

theorem grows_initializeGrid (rows cols : Nat) : grows (initializeGrid rows cols) = rows := by
  simp [grows, initializeGrid]

theorem gcols_initializeGrid (rows cols : Nat) (h : 1 ≤ rows) :
    gcols (initializeGrid rows cols) = cols := by
  have h0 : 0 < rows := h
  simp [gcols, initializeGrid, List.getD_eq_getElem?_getD, List.getElem?_replicate, h0]

theorem cellAt_initializeGrid (rows cols : Nat) (r c : Int) (hr : 0 ≤ r)
    (hr2 : r < (rows : Int)) (hc : 0 ≤ c) (hc2 : c < (cols : Int)) :
    cellAt (initializeGrid rows cols) r c = some none := by
  have hrn : r.toNat < rows := by omega
  have hcn : c.toNat < cols := by omega
  unfold cellAt grows
  have hrow : (initializeGrid rows cols).getD r.toNat [] = List.replicate cols none := by
    simp [initializeGrid, List.getD_eq_getElem?_getD, List.getElem?_replicate, hrn]
  have hlen : ((initializeGrid rows cols).length : Int) = (rows : Int) := by
    simp [initializeGrid]
  rw [hlen, if_pos ⟨hr, hr2⟩]
  simp only [hrow, List.length_replicate]
  rw [if_pos ⟨hc, hc2⟩]
  simp [List.getD_eq_getElem?_getD, List.getElem?_replicate, hcn]

theorem canPlaceWord_initializeGrid (w : Word) (rows cols : Nat) (row col : Int)
    (hr : 0 ≤ row) (hr2 : row < (rows : Int)) (hc : 0 ≤ col)
    (hc2 : col + w.length ≤ (cols : Int)) :
    canPlaceWord w row col true (initializeGrid rows cols) = true := by
  have hrows : 1 ≤ rows := by omega
  unfold canPlaceWord
  rw [gcols_initializeGrid rows cols hrows, if_neg (by simp; omega)]
  rw [List.all_eq_true]
  intro i hi
  have hi' : i < w.length := List.mem_range.mp hi
  show (match cellAt (initializeGrid rows cols) row (col + (i : Int)) with
    | some none => true
    | some (some ex) => decide (ex = w.getD i ' ')
    | none => false) = true
  rw [cellAt_initializeGrid rows cols row (col + (i : Int)) hr hr2 (by omega) (by omega)]

theorem placeWord_seed (rows cols : Nat) (w : Word) (hrows : 1 ≤ rows)
    (hlen : w.length ≤ cols) :
    placeWord w ((rows : Int).fdiv 2) (((cols : Int) - w.length).fdiv 2) true
        ⟨initializeGrid rows cols, [], 1⟩ =
      some ⟨writeWord (initializeGrid rows cols) w ((rows : Int).fdiv 2)
          (((cols : Int) - w.length).fdiv 2) true,
        [⟨w, (rows : Int).fdiv 2, ((cols : Int) - w.length).fdiv 2, true, 1⟩], 2⟩ := by
  have h2 : (0 : Int) ≤ 2 := by norm_num
  have hRe : ((rows : Int)).fdiv 2 = (rows : Int) / 2 := Int.fdiv_eq_ediv _ h2
  have hCe : (((cols : Int) - w.length)).fdiv 2 = ((cols : Int) - w.length) / 2 :=
    Int.fdiv_eq_ediv _ h2
  have hcan : canPlaceWord w ((rows : Int).fdiv 2) (((cols : Int) - w.length).fdiv 2) true
      (initializeGrid rows cols) = true := by
    apply canPlaceWord_initializeGrid
    · rw [hRe]; omega
    · rw [hRe]; omega
    · rw [hCe]; omega
    · rw [hCe]; omega
  unfold placeWord
  rw [hcan]
  simp

theorem placeWord_placedWords (w : Word) (row col : Int) (isH : Bool) (s s' : GenState)
    (h : placeWord w row col isH s = some s') :
    s'.placedWords = s.placedWords ++ [⟨w, row, col, isH, s.clueNumber⟩] := by
  unfold placeWord at h
  split at h
  · exact absurd h (by simp)
  · split at h
    · exact absurd h (by simp)
    · simp only [Option.some.injEq] at h
      rw [← h]

theorem tryPositions_placedWords (w : Word) (s : GenState) :
    ∀ (ps : List Pos) (s' : GenState), tryPositions w s ps = some s' →
      ∃ pw, s'.placedWords = s.placedWords ++ [pw] := by
  intro ps
  induction ps with
  | nil => intro s' h; exact absurd h (by simp [tryPositions])
  | cons p rest ih =>
      intro s' h
      simp only [tryPositions] at h
      cases hp : placeWord w p.row p.col p.isHorizontal s with
      | some s'' =>
          rw [hp] at h
          simp only [Option.some.injEq] at h
          subst h
          exact ⟨_, placeWord_placedWords _ _ _ _ _ _ hp⟩
      | none => rw [hp] at h; exact ih s' h

theorem tryPlaceWord_placedWords (w : Word) (s s' : GenState)
    (h : tryPlaceWord w s = some s') :
    ∃ pw, s'.placedWords = s.placedWords ++ [pw] :=
  tryPositions_placedWords w s _ s' h

theorem placeLoop_placedWords :
    ∀ (fuel : Nat) (s : GenState) (q : List Word),
      ∃ t, ((placeLoop s q fuel).1).placedWords = s.placedWords ++ t := by
  intro fuel
  induction fuel with
  | zero => intro s q; exact ⟨[], by simp [placeLoop]⟩
  | succ n ih =>
      intro s q
      cases q with
      | nil => exact ⟨[], by simp [placeLoop]⟩
      | cons w rest =>
          simp only [placeLoop]
          cases hw : tryPlaceWord w s with
          | some s' =>
              obtain ⟨pw, hpw⟩ := tryPlaceWord_placedWords w s s' hw
              obtain ⟨t, ht⟩ := ih s' rest
              exact ⟨[pw] ++ t, by simp [ht, hpw]⟩
          | none =>
              obtain ⟨t, ht⟩ := ih s (rest ++ [w])
              exact ⟨t, by simpa using ht⟩

theorem trimGrid_placedWords (s : GenState) :
    ∃ dr dc : Int, (trimGrid s).placedWords = s.placedWords.map fun pw =>
      { pw with row := pw.row - dr, col := pw.col - dc } := by
  by_cases hb : (trimBounds s.grid).minRow ≤ (trimBounds s.grid).maxRow ∧
      (trimBounds s.grid).minCol ≤ (trimBounds s.grid).maxCol
  · refine ⟨(trimBounds s.grid).minRow, (trimBounds s.grid).minCol, ?_⟩
    simp only [trimGrid]
    rw [if_pos hb]
  · refine ⟨0, 0, ?_⟩
    simp only [trimGrid]
    rw [if_neg hb]
    simp

/-- C2 (amended): whenever the first word of the sorted order is at most
50 letters long (so that it fits the capped grid), it is placed
horizontally at row `⌊rows/2⌋`, column `⌊(cols − len)/2⌋` of the fresh
grid by the seed step — which still runs the `canPlaceWord` fit test, the
reason longer words are silently dropped — and it heads the output word
list with sequence number 1. -/
theorem seed_placed_when_it_fits (ws : List Word) (hne : ws ≠ [])
    (hfit : ((sortWordsByIntersectionPotential ws).headD []).length ≤ 50) :
    ∃ w0 rest, sortWordsByIntersectionPotential ws = w0 :: rest ∧
      placeWord w0 (((calculateGridSize (w0 :: rest)).1 : Int).fdiv 2)
          ((((calculateGridSize (w0 :: rest)).2 : Int) - w0.length).fdiv 2) true
          ⟨initializeGrid (calculateGridSize (w0 :: rest)).1 (calculateGridSize (w0 :: rest)).2,
            [], 1⟩ =
        some ⟨writeWord
            (initializeGrid (calculateGridSize (w0 :: rest)).1 (calculateGridSize (w0 :: rest)).2)
            w0 (((calculateGridSize (w0 :: rest)).1 : Int).fdiv 2)
            ((((calculateGridSize (w0 :: rest)).2 : Int) - w0.length).fdiv 2) true,
          [⟨w0, ((calculateGridSize (w0 :: rest)).1 : Int).fdiv 2,
            (((calculateGridSize (w0 :: rest)).2 : Int) - w0.length).fdiv 2, true, 1⟩], 2⟩ ∧
      ∃ p, generate ws = Except.ok p ∧ ∃ pw rest', p.words = pw :: rest' ∧
        pw.word = w0 ∧ pw.isHorizontal = true ∧ pw.clueNumber = 1 := by
  have hsp : (sortWordsByIntersectionPotential ws).Perm ws := sortByLe_perm wordCmpLe ws
  have hlen0 : sortWordsByIntersectionPotential ws ≠ [] := by
    intro hnil
    have hl := hsp.length_eq
    rw [hnil] at hl
    exact hne (List.eq_nil_of_length_eq_zero hl.symm)
  obtain ⟨w0, rest, hsort⟩ := List.exists_cons_of_ne_nil hlen0
  have hw50 : w0.length ≤ 50 := by rw [hsort] at hfit; simpa using hfit
  obtain ⟨hlen1, heq12, h11⟩ :=
    calculateGridSize_bounds (w0 :: rest) (by simp) w0 (List.mem_cons_self _ _) hw50
  have hseed := placeWord_seed (calculateGridSize (w0 :: rest)).1
    (calculateGridSize (w0 :: rest)).2 w0 h11 (heq12 ▸ hlen1)
  refine ⟨w0, rest, hsort, hseed, ?_⟩
  have hgen : generate ws = Except.ok (createPuzzleData (trimGrid
      (placeWords (w0 :: rest)
        ⟨initializeGrid (calculateGridSize (w0 :: rest)).1 (calculateGridSize (w0 :: rest)).2,
          [], 1⟩).1)) := by
    unfold generate
    rw [if_neg hne, hsort]
  refine ⟨_, hgen, ?_⟩
  have hwords : ∃ t, ((placeWords (w0 :: rest)
      ⟨initializeGrid (calculateGridSize (w0 :: rest)).1 (calculateGridSize (w0 :: rest)).2,
        [], 1⟩).1).placedWords =
      (⟨w0, ((calculateGridSize (w0 :: rest)).1 : Int).fdiv 2,
        (((calculateGridSize (w0 :: rest)).2 : Int) - w0.length).fdiv 2, true, 1⟩ :
          PlacedWord) :: t := by
    simp only [placeWords, grows_initializeGrid,
      gcols_initializeGrid (calculateGridSize (w0 :: rest)).1 (calculateGridSize (w0 :: rest)).2
        h11, hseed, Option.getD_some]
    obtain ⟨t, ht⟩ := placeLoop_placedWords (rest.length * 100) _ rest
    exact ⟨t, by rw [ht]; rfl⟩
  obtain ⟨t, ht⟩ := hwords
  obtain ⟨dr, dc, hdr⟩ := trimGrid_placedWords (placeWords (w0 :: rest)
    ⟨initializeGrid (calculateGridSize (w0 :: rest)).1 (calculateGridSize (w0 :: rest)).2,
      [], 1⟩).1
  refine ⟨⟨w0, ((calculateGridSize (w0 :: rest)).1 : Int).fdiv 2 - dr,
    (((calculateGridSize (w0 :: rest)).2 : Int) - w0.length).fdiv 2 - dc, true, 1⟩,
    t.map (fun pw => { pw with row := pw.row - dr, col := pw.col - dc }), ?_, rfl, rfl, rfl⟩
  show (trimGrid _).placedWords = _
  rw [hdr, ht, List.map_cons]

theorem seed_placed_when_it_fits_witness :
    ∃ w0 rest, sortWordsByIntersectionPotential [['h','i']] = w0 :: rest ∧
      placeWord w0 (((calculateGridSize (w0 :: rest)).1 : Int).fdiv 2)
          ((((calculateGridSize (w0 :: rest)).2 : Int) - w0.length).fdiv 2) true
          ⟨initializeGrid (calculateGridSize (w0 :: rest)).1 (calculateGridSize (w0 :: rest)).2,
            [], 1⟩ =
        some ⟨writeWord
            (initializeGrid (calculateGridSize (w0 :: rest)).1 (calculateGridSize (w0 :: rest)).2)
            w0 (((calculateGridSize (w0 :: rest)).1 : Int).fdiv 2)
            ((((calculateGridSize (w0 :: rest)).2 : Int) - w0.length).fdiv 2) true,
          [⟨w0, ((calculateGridSize (w0 :: rest)).1 : Int).fdiv 2,
            (((calculateGridSize (w0 :: rest)).2 : Int) - w0.length).fdiv 2, true, 1⟩], 2⟩ ∧
      ∃ p, generate [['h','i']] = Except.ok p ∧ ∃ pw rest', p.words = pw :: rest' ∧
        pw.word = w0 ∧ pw.isHorizontal = true ∧ pw.clueNumber = 1 :=
  seed_placed_when_it_fits [['h','i']] (by simp) (by with_unfolding_all decide)

/-- C2 is false as stated: the seed placement still runs the
`canPlaceWord` fit test, and a 51-letter first word cannot fit the
50-capped grid, so for the single-word input of 51 letters the first (and
only) word of sorted order is not placed at all — the output puzzle
contains no words, and in particular no entry with sequence number 1. -/
theorem seed_dropped_for_51_letter_word :
    sortWordsByIntersectionPotential [List.replicate 51 'a'] = [List.replicate 51 'a'] ∧
    (generate [List.replicate 51 'a']).toOption.map (fun p => p.words) = some [] :=
  ⟨by with_unfolding_all decide, by with_unfolding_all decide⟩



/-! ## Grid-shape and cell lemmas -/

theorem cellAt_of_neg (g : Grid) (r c : Int) (h : r < 0 ∨ c < 0) : cellAt g r c = none := by
  unfold cellAt grows
  rcases h with h | h
  · rw [if_neg (by omega)]
  · by_cases h1 : 0 ≤ r ∧ r < (g.length : Int)
    · rw [if_pos h1, if_neg (by omega)]
    · rw [if_neg h1]

theorem cellAt_eq_getElem (g : Grid) (r c : Int) (hr : 0 ≤ r) (hc : 0 ≤ c) :
    cellAt g r c = (g[r.toNat]?.getD [])[c.toNat]? := by
  unfold cellAt grows
  by_cases h1 : r.toNat < g.length
  · rw [if_pos ⟨hr, by omega⟩]
    have hrow : g[r.toNat]? = some (g.getD r.toNat []) := by
      rw [List.getD_eq_getElem g [] h1]
      exact List.getElem?_eq_getElem h1
    rw [hrow]
    simp only [Option.getD_some]
    by_cases h2 : c.toNat < (g.getD r.toNat []).length
    · rw [if_pos ⟨hc, by omega⟩, List.getD_eq_getElem _ none h2]
      exact (List.getElem?_eq_getElem h2).symm
    · rw [if_neg (by omega)]
      exact (List.getElem?_eq_none (by omega)).symm
  · rw [if_neg (by omega)]
    rw [List.getElem?_eq_none (show g.length ≤ r.toNat by omega)]
    simp

theorem GridShape_setCell (g : Grid) (R C : Nat) (r c : Int) (ch : Char)
    (h : GridShape g R C) : GridShape (setCell g r c ch) R C := by
  obtain ⟨hlen, hrows⟩ := h
  unfold setCell
  split
  · by_cases hr : r.toNat < g.length
    · refine ⟨by simpa using hlen, ?_⟩
      intro row hrow
      rcases List.mem_or_eq_of_mem_set hrow with hmem | heq
      · exact hrows row hmem
      · subst heq
        rw [List.length_set, List.getD_eq_getElem g [] hr]
        exact hrows _ (List.getElem_mem hr)
    · rw [List.set_eq_of_length_le (by omega)]
      exact ⟨hlen, hrows⟩
  · exact ⟨hlen, hrows⟩

theorem GridShape_writeWord (g : Grid) (R C : Nat) (w : Word) (row col : Int) (isH : Bool)
    (h : GridShape g R C) : GridShape (writeWord g w row col isH) R C := by
  unfold writeWord
  generalize List.range w.length = l
  induction l generalizing g with
  | nil => exact h
  | cons i rest ih => exact ih _ (GridShape_setCell _ _ _ _ _ _ h)

theorem cellAt_isSome_of_bounds (g : Grid) (R C : Nat) (hsh : GridShape g R C) (r c : Int)
    (hr : 0 ≤ r) (hr2 : r < (R : Int)) (hc : 0 ≤ c) (hc2 : c < (C : Int)) :
    ∃ v, cellAt g r c = some v := by
  obtain ⟨hlen, hrows⟩ := hsh
  have hrn : r.toNat < g.length := by omega
  have hrowlen : (g.getD r.toNat []).length = C := by
    rw [List.getD_eq_getElem g [] hrn]
    exact hrows _ (List.getElem_mem hrn)
  unfold cellAt grows
  rw [if_pos ⟨hr, by omega⟩, if_pos ⟨hc, by rw [hrowlen]; omega⟩]
  exact ⟨_, rfl⟩

theorem cellAt_bounds (g : Grid) (R C : Nat) (hsh : GridShape g R C) (r c : Int) (v : Cell)
    (h : cellAt g r c = some v) : 0 ≤ r ∧ r < (R : Int) ∧ 0 ≤ c ∧ c < (C : Int) := by
  obtain ⟨hlen, hrows⟩ := hsh
  unfold cellAt grows at h
  split at h
  · rename_i h1
    split at h
    · rename_i h2
      have hrn : r.toNat < g.length := by omega
      have hrowlen : (g.getD r.toNat []).length = C := by
        rw [List.getD_eq_getElem g [] hrn]
        exact hrows _ (List.getElem_mem hrn)
      rw [hrowlen] at h2
      omega
    · exact absurd h (by simp)
  · exact absurd h (by simp)

theorem cellAt_setCell_same (g : Grid) (r c : Int) (ch : Char)
    (h : (cellAt g r c).isSome) : cellAt (setCell g r c ch) r c = some (some ch) := by
  have hr : 0 ≤ r := by
    by_contra hneg
    rw [cellAt_of_neg g r c (Or.inl (by omega))] at h
    exact absurd h (by simp)
  have hc : 0 ≤ c := by
    by_contra hneg
    rw [cellAt_of_neg g r c (Or.inr (by omega))] at h
    exact absurd h (by simp)
  rw [cellAt_eq_getElem g r c hr hc] at h
  have hrn : r.toNat < g.length := by
    by_contra hx
    rw [List.getElem?_eq_none (show g.length ≤ r.toNat by omega)] at h
    exact absurd h (by simp)
  rw [List.getElem?_eq_getElem hrn] at h
  simp only [Option.getD_some] at h
  have hcn : c.toNat < g[r.toNat].length := by
    by_contra hx
    rw [List.getElem?_eq_none (by omega)] at h
    exact absurd h (by simp)
  unfold setCell
  rw [if_pos ⟨hr, hc⟩]
  rw [cellAt_eq_getElem _ r c hr hc]
  have hgd : g.getD r.toNat [] = g[r.toNat] := List.getD_eq_getElem g [] hrn
  rw [hgd, List.getElem?_set_self (by simpa using hrn)]
  simp only [Option.getD_some]
  rw [List.getElem?_set_self (by simpa using hcn)]

theorem cellAt_setCell_ne (g : Grid) (r c r' c' : Int) (ch : Char)
    (hne : r ≠ r' ∨ c ≠ c') : cellAt (setCell g r' c' ch) r c = cellAt g r c := by
  unfold setCell
  split
  · rename_i hpos
    by_cases hr : 0 ≤ r
    · by_cases hc : 0 ≤ c
      · rw [cellAt_eq_getElem _ r c hr hc, cellAt_eq_getElem g r c hr hc]
        by_cases hrr : r.toNat = r'.toNat
        · have hreq : r = r' := by omega
          have hcne : c ≠ c' := by tauto
          have hccn : c.toNat ≠ c'.toNat := by omega
          by_cases hrn : r'.toNat < g.length
          · have hrn2 : r.toNat < g.length := by omega
            rw [← hrr, List.getElem?_set_self hrn2]
            simp only [Option.getD_some]
            have hgd : g.getD r.toNat [] = g[r.toNat] := List.getD_eq_getElem g [] hrn2
            rw [hgd, List.getElem?_set_ne (by omega), List.getElem?_eq_getElem hrn2]
            simp
          · rw [List.set_eq_of_length_le (by omega)]
        · rw [List.getElem?_set_ne (by omega)]
      · rw [cellAt_of_neg _ r c (Or.inr (by omega)), cellAt_of_neg g r c (Or.inr (by omega))]
    · rw [cellAt_of_neg _ r c (Or.inl (by omega)), cellAt_of_neg g r c (Or.inl (by omega))]
  · rfl

theorem posOf_inj (row col : Int) (isH : Bool) (i j : Nat)
    (h : posOf row col isH i = posOf row col isH j) : i = j := by
  unfold posOf at h
  cases isH <;> simp at h <;> omega

theorem cellAt_foldl_setCell_not_covered (w : Word) (row col : Int) (isH : Bool)
    (r c : Int) :
    ∀ (l : List Nat) (g : Grid), (∀ i ∈ l, posOf row col isH i ≠ (r, c)) →
      cellAt (l.foldl (fun g' (i : Nat) =>
        setCell g' (posOf row col isH i).1 (posOf row col isH i).2 (w.getD i ' ')) g) r c =
      cellAt g r c := by
  intro l
  induction l with
  | nil => intro g _; rfl
  | cons i rest ih =>
      intro g hn
      simp only [List.foldl_cons]
      rw [ih _ (fun j hj => hn j (List.mem_cons_of_mem _ hj))]
      apply cellAt_setCell_ne
      have hne := hn i (List.mem_cons_self i rest)
      by_contra hcon
      push_neg at hcon
      exact hne (by rw [Prod.ext_iff]; exact ⟨hcon.1.symm, hcon.2.symm⟩)

theorem cellAt_foldl_setCell_covered (w : Word) (row col : Int) (isH : Bool) (r c : Int) :
    ∀ (l : List Nat) (g : Grid) (j : Nat), l.Nodup → j ∈ l →
      posOf row col isH j = (r, c) → (cellAt g r c).isSome →
      cellAt (l.foldl (fun g' (i : Nat) =>
        setCell g' (posOf row col isH i).1 (posOf row col isH i).2 (w.getD i ' ')) g) r c =
      some (some (w.getD j ' ')) := by
  intro l
  induction l with
  | nil => intro g j _ hj; cases hj
  | cons i rest ih =>
      intro g j hnd hj hpos hsome
      simp only [List.foldl_cons]
      rcases List.mem_cons.mp hj with heq | hjr
      · rw [heq] at hpos ⊢
        have h1 : (posOf row col isH i).1 = r := by rw [hpos]
        have h2 : (posOf row col isH i).2 = c := by rw [hpos]
        have hset : cellAt (setCell g (posOf row col isH i).1 (posOf row col isH i).2
            (w.getD i ' ')) r c = some (some (w.getD i ' ')) := by
          rw [h1, h2]
          exact cellAt_setCell_same g r c _ hsome
        rw [cellAt_foldl_setCell_not_covered w row col isH r c rest _ ?_]
        · exact hset
        · intro i' hi' hpi'
          have : i' = i := posOf_inj row col isH i' i (by rw [hpi', hpos])
          exact (List.nodup_cons.mp hnd).1 (this ▸ hi')
      · have hij : i ≠ j := fun he => (List.nodup_cons.mp hnd).1 (he ▸ hjr)
        have hstep : cellAt (setCell g (posOf row col isH i).1 (posOf row col isH i).2
            (w.getD i ' ')) r c = cellAt g r c := by
          apply cellAt_setCell_ne
          by_contra hcon
          push_neg at hcon
          have hpi : posOf row col isH i = (r, c) := by
            rw [Prod.ext_iff]; exact ⟨hcon.1.symm, hcon.2.symm⟩
          exact hij (posOf_inj row col isH i j (by rw [hpi, hpos]))
        exact ih _ j (List.nodup_cons.mp hnd).2 hjr hpos (by rw [hstep]; exact hsome)

theorem cellAt_writeWord_not_covered (g : Grid) (w : Word) (row col : Int) (isH : Bool)
    (r c : Int) (h : ∀ i < w.length, posOf row col isH i ≠ (r, c)) :
    cellAt (writeWord g w row col isH) r c = cellAt g r c := by
  unfold writeWord
  exact cellAt_foldl_setCell_not_covered w row col isH r c _ g
    (fun i hi => h i (List.mem_range.mp hi))

theorem cellAt_writeWord_covered (g : Grid) (w : Word) (row col : Int) (isH : Bool)
    (j : Nat) (hj : j < w.length) (r c : Int) (hpos : posOf row col isH j = (r, c))
    (hsome : (cellAt g r c).isSome) :
    cellAt (writeWord g w row col isH) r c = some (some (w.getD j ' ')) := by
  unfold writeWord
  exact cellAt_foldl_setCell_covered w row col isH r c _ g j (List.nodup_range _)
    (List.mem_range.mpr hj) hpos hsome

theorem canPlaceWord_cells (w : Word) (row col : Int) (isH : Bool) (g : Grid)
    (h : canPlaceWord w row col isH g = true) :
    ∀ i < w.length,
      cellAt g (posOf row col isH i).1 (posOf row col isH i).2 = some none ∨
      cellAt g (posOf row col isH i).1 (posOf row col isH i).2 =
        some (some (w.getD i ' ')) := by
  simp only [canPlaceWord] at h
  by_cases hb : (if isH = true then decide ((gcols g : Int) < col + (w.length : Int))
      else decide ((grows g : Int) < row + (w.length : Int))) = true
  · rw [if_pos hb] at h
    exact absurd h (by simp)
  · rw [if_neg hb] at h
    rw [List.all_eq_true] at h
    intro i hi
    have h2 : (match cellAt g (posOf row col isH i).1 (posOf row col isH i).2 with
      | some none => true
      | some (some ex) => decide (ex = w.getD i ' ')
      | none => false) = true := h i (List.mem_range.mpr hi)
    revert h2
    cases hcell : cellAt g (posOf row col isH i).1 (posOf row col isH i).2 with
    | none => intro h2; simp at h2
    | some cv =>
        cases cv with
        | none => intro _; exact Or.inl rfl
        | some ex =>
            intro h2
            right
            rw [of_decide_eq_true h2]

theorem placeWord_some_eq (w : Word) (row col : Int) (isH : Bool) (s s' : GenState)
    (h : placeWord w row col isH s = some s') :
    canPlaceWord w row col isH s.grid = true ∧
    s' = ⟨writeWord s.grid w row col isH,
      s.placedWords ++ [⟨w, row, col, isH, s.clueNumber⟩], s.clueNumber + 1⟩ := by
  unfold placeWord at h
  split at h
  · exact absurd h (by simp)
  · rename_i hcan
    split at h
    · exact absurd h (by simp)
    · exact ⟨not_not.mp hcan, (Option.some.inj h).symm⟩

theorem GoodState_placeWord (s s' : GenState) (w : Word) (row col : Int) (isH : Bool)
    (hg : GoodState s) (h : placeWord w row col isH s = some s') : GoodState s' := by
  obtain ⟨hcan, heq⟩ := placeWord_some_eq w row col isH s s' h
  have hgrid : s'.grid = writeWord s.grid w row col isH := by rw [heq]
  have hpws : s'.placedWords = s.placedWords ++ [⟨w, row, col, isH, s.clueNumber⟩] := by
    rw [heq]
  have hcells := canPlaceWord_cells w row col isH s.grid hcan
  constructor
  · intro pw hpw i hi
    rw [hpws] at hpw
    rw [hgrid]
    rcases List.mem_append.mp hpw with hold | hnew
    · by_cases hcov : ∃ j < w.length, posOf row col isH j = ((cellOf pw i).1, (cellOf pw i).2)
      · obtain ⟨j, hj, hpj⟩ := hcov
        have hval := hg.1 pw hold i hi
        have hcj := hcells j hj
        have hc1 : (posOf row col isH j).1 = (cellOf pw i).1 := by rw [hpj]
        have hc2 : (posOf row col isH j).2 = (cellOf pw i).2 := by rw [hpj]
        rw [hc1, hc2] at hcj
        rcases hcj with hnone | hsome'
        · rw [hval] at hnone
          exact absurd hnone (by simp)
        · have hlet : w.getD j ' ' = pw.word.getD i ' ' := by
            rw [hval] at hsome'
            simpa using hsome'.symm
          rw [cellAt_writeWord_covered s.grid w row col isH j hj
            (cellOf pw i).1 (cellOf pw i).2 hpj ?_]
          · rw [hlet]
          · rw [hval]; rfl
      · push_neg at hcov
        rw [cellAt_writeWord_not_covered s.grid w row col isH (cellOf pw i).1
          (cellOf pw i).2 hcov]
        exact hg.1 pw hold i hi
    · have hpweq : pw = ⟨w, row, col, isH, s.clueNumber⟩ := by simpa using hnew
      subst hpweq
      apply cellAt_writeWord_covered s.grid w row col isH i hi
        (posOf row col isH i).1 (posOf row col isH i).2 rfl
      rcases hcells i hi with h1 | h1 <;> rw [h1] <;> rfl
  · intro r c ch hcell
    rw [hgrid] at hcell
    rw [hpws]
    by_cases hcov : ∃ j < w.length, posOf row col isH j = (r, c)
    · obtain ⟨j, hj, hpj⟩ := hcov
      have hsome : (cellAt s.grid r c).isSome := by
        have hcj := hcells j hj
        have hc1 : (posOf row col isH j).1 = r := by rw [hpj]
        have hc2 : (posOf row col isH j).2 = c := by rw [hpj]
        rw [hc1, hc2] at hcj
        rcases hcj with h1 | h1 <;> rw [h1] <;> rfl
      rw [cellAt_writeWord_covered s.grid w row col isH j hj r c hpj hsome] at hcell
      have hch : w.getD j ' ' = ch := by simpa using hcell
      refine ⟨⟨w, row, col, isH, s.clueNumber⟩, List.mem_append_right _ (by simp), ?_⟩
      exact ⟨j, hj, hpj, hch⟩
    · push_neg at hcov
      rw [cellAt_writeWord_not_covered s.grid w row col isH r c hcov] at hcell
      obtain ⟨pw, hpw, hcv⟩ := hg.2 r c ch hcell
      exact ⟨pw, List.mem_append_left _ hpw, hcv⟩

theorem GridShape_initializeGrid (R C : Nat) : GridShape (initializeGrid R C) R C := by
  refine ⟨by simp [initializeGrid], ?_⟩
  intro row hrow
  rw [List.eq_of_mem_replicate hrow]
  simp

theorem replayGrid_append_one (R C : Nat) (pws : List PlacedWord) (pw : PlacedWord) :
    replayGrid R C (pws ++ [pw]) =
      writeWord (replayGrid R C pws) pw.word pw.row pw.col pw.isHorizontal := by
  unfold replayGrid
  rw [List.foldl_append]
  rfl

theorem placeWord_some_ok (R C : Nat) (s s' : GenState) (w : Word) (row col : Int)
    (isH : Bool)
    (hok : GridShape s.grid R C ∧ GoodState s ∧ s.grid = replayGrid R C s.placedWords)
    (h : placeWord w row col isH s = some s') :
    GridShape s'.grid R C ∧ GoodState s' ∧ s'.grid = replayGrid R C s'.placedWords := by
  obtain ⟨hcan, heq⟩ := placeWord_some_eq w row col isH s s' h
  have hgrid : s'.grid = writeWord s.grid w row col isH := by rw [heq]
  have hpws : s'.placedWords = s.placedWords ++ [⟨w, row, col, isH, s.clueNumber⟩] := by
    rw [heq]
  refine ⟨?_, GoodState_placeWord s s' w row col isH hok.2.1 h, ?_⟩
  · rw [hgrid]
    exact GridShape_writeWord _ _ _ _ _ _ _ hok.1
  · rw [hgrid, hpws, replayGrid_append_one, ← hok.2.2]

theorem tryPositions_ok (R C : Nat) (w : Word) (s : GenState) :
    ∀ (ps : List Pos) (s' : GenState),
      (GridShape s.grid R C ∧ GoodState s ∧ s.grid = replayGrid R C s.placedWords) →
      tryPositions w s ps = some s' →
      GridShape s'.grid R C ∧ GoodState s' ∧ s'.grid = replayGrid R C s'.placedWords := by
  intro ps
  induction ps with
  | nil => intro s' _ h; exact absurd h (by simp [tryPositions])
  | cons p rest ih =>
      intro s' hok h
      simp only [tryPositions] at h
      cases hp : placeWord w p.row p.col p.isHorizontal s with
      | some s'' =>
          rw [hp] at h
          simp only [Option.some.injEq] at h
          rw [← h]
          exact placeWord_some_ok R C s s'' w p.row p.col p.isHorizontal hok hp
      | none => rw [hp] at h; exact ih s' hok h

theorem tryPlaceWord_ok (R C : Nat) (w : Word) (s s' : GenState)
    (hok : GridShape s.grid R C ∧ GoodState s ∧ s.grid = replayGrid R C s.placedWords)
    (h : tryPlaceWord w s = some s') :
    GridShape s'.grid R C ∧ GoodState s' ∧ s'.grid = replayGrid R C s'.placedWords :=
  tryPositions_ok R C w s _ s' hok h

theorem placeLoop_ok (R C : Nat) :
    ∀ (fuel : Nat) (s : GenState) (q : List Word),
      (GridShape s.grid R C ∧ GoodState s ∧ s.grid = replayGrid R C s.placedWords) →
      (GridShape (placeLoop s q fuel).1.grid R C ∧ GoodState (placeLoop s q fuel).1 ∧
        (placeLoop s q fuel).1.grid = replayGrid R C (placeLoop s q fuel).1.placedWords) := by
  intro fuel
  induction fuel with
  | zero => intro s q hok; simpa [placeLoop] using hok
  | succ n ih =>
      intro s q hok
      cases q with
      | nil => simpa [placeLoop] using hok
      | cons w rest =>
          simp only [placeLoop]
          cases hw : tryPlaceWord w s with
          | some s' => exact ih s' rest (tryPlaceWord_ok R C w s s' hok hw)
          | none => exact ih s (rest ++ [w]) hok

theorem initial_ok (R C : Nat) :
    GridShape (initializeGrid R C) R C ∧ GoodState ⟨initializeGrid R C, [], 1⟩ ∧
      initializeGrid R C = replayGrid R C [] := by
  refine ⟨GridShape_initializeGrid R C, ⟨?_, ?_⟩, rfl⟩
  · intro pw hpw; cases hpw
  · intro r c ch hcell
    exfalso
    by_cases hb : 0 ≤ r ∧ r < (R : Int) ∧ 0 ≤ c ∧ c < (C : Int)
    · rw [cellAt_initializeGrid R C r c hb.1 hb.2.1 hb.2.2.1 hb.2.2.2] at hcell
      exact absurd hcell (by simp)
    · have := cellAt_bounds (initializeGrid R C) R C (GridShape_initializeGrid R C) r c
        (some ch) hcell
      exact hb this

theorem placeWords_ok (R C : Nat) (ws : List Word) (s : GenState)
    (hok : GridShape s.grid R C ∧ GoodState s ∧ s.grid = replayGrid R C s.placedWords) :
    GridShape (placeWords ws s).1.grid R C ∧ GoodState (placeWords ws s).1 ∧
      (placeWords ws s).1.grid = replayGrid R C (placeWords ws s).1.placedWords := by
  cases ws with
  | nil => simpa [placeWords] using hok
  | cons w0 rest =>
      simp only [placeWords]
      apply placeLoop_ok
      cases hp : placeWord w0 ((grows s.grid : Int).fdiv 2)
          (((gcols s.grid : Int) - (w0.length : Int)).fdiv 2) true s with
      | some s1 =>
          simp only [Option.getD_some]
          exact placeWord_some_ok R C s s1 w0 _ _ true hok hp
      | none => simpa using hok


/-! ## Trim-bounds lemmas -/

theorem mem_allPositions (g : Grid) (rc : Nat × Nat) :
    rc ∈ allPositions g ↔ rc.1 < grows g ∧ rc.2 < gcols g := by
  unfold allPositions
  constructor
  · intro h
    obtain ⟨r, hr, h2⟩ := List.mem_flatMap.mp h
    obtain ⟨c, hc, h3⟩ := List.mem_map.mp h2
    rw [← h3]
    exact ⟨List.mem_range.mp hr, List.mem_range.mp hc⟩
  · intro ⟨h1, h2⟩
    refine List.mem_flatMap.mpr ⟨rc.1, List.mem_range.mpr h1, ?_⟩
    exact List.mem_map.mpr ⟨rc.2, List.mem_range.mpr h2, (by rfl)⟩

theorem trimStep_foldl_mono (g : Grid) :
    ∀ (l : List (Nat × Nat)) (b0 : Bounds),
      (l.foldl (trimStep g) b0).minRow ≤ b0.minRow ∧
      b0.maxRow ≤ (l.foldl (trimStep g) b0).maxRow ∧
      (l.foldl (trimStep g) b0).minCol ≤ b0.minCol ∧
      b0.maxCol ≤ (l.foldl (trimStep g) b0).maxCol := by
  intro l
  induction l with
  | nil => intro b0; simp
  | cons rc rest ih =>
      intro b0
      simp only [List.foldl_cons]
      have := ih (trimStep g b0 rc)
      unfold trimStep at this ⊢
      split at this <;> split <;> simp_all <;> omega

theorem trimStep_foldl_contains (g : Grid) :
    ∀ (l : List (Nat × Nat)) (b0 : Bounds) (rc : Nat × Nat), rc ∈ l →
      isFilledCell g rc.1 rc.2 = true →
      (l.foldl (trimStep g) b0).minRow ≤ (rc.1 : Int) ∧
      (rc.1 : Int) ≤ (l.foldl (trimStep g) b0).maxRow ∧
      (l.foldl (trimStep g) b0).minCol ≤ (rc.2 : Int) ∧
      (rc.2 : Int) ≤ (l.foldl (trimStep g) b0).maxCol := by
  intro l
  induction l with
  | nil => intro b0 rc h; cases h
  | cons rc0 rest ih =>
      intro b0 rc hmem hfill
      simp only [List.foldl_cons]
      rcases List.mem_cons.mp hmem with heq | hrest
      · subst heq
        have hmono := trimStep_foldl_mono g rest (trimStep g b0 rc)
        unfold trimStep at hmono ⊢
        rw [if_pos hfill] at hmono ⊢
        simp only [] at hmono
        omega
      · exact ih (trimStep g b0 rc0) rc hrest hfill

theorem trimStep_foldl_minRow (g : Grid) :
    ∀ (l : List (Nat × Nat)) (b0 : Bounds),
      (l.foldl (trimStep g) b0).minRow = b0.minRow ∨
      ∃ rc ∈ l, isFilledCell g rc.1 rc.2 = true ∧
        ((rc.1 : Int)) = (l.foldl (trimStep g) b0).minRow := by
  intro l
  induction l with
  | nil => intro b0; exact Or.inl rfl
  | cons rc0 rest ih =>
      intro b0
      simp only [List.foldl_cons]
      rcases ih (trimStep g b0 rc0) with heq | ⟨rc, hmem, hfill, hval⟩
      · rw [heq]
        unfold trimStep
        by_cases hf : isFilledCell g rc0.1 rc0.2 = true
        · rw [if_pos hf]
          simp only []
          rcases min_cases b0.minRow ((rc0.1 : Nat) : Int) with ⟨h1, h2⟩ | ⟨h1, h2⟩
          · exact Or.inl h1
          · exact Or.inr ⟨rc0, List.mem_cons_self _ _, hf, h1.symm⟩
        · rw [if_neg hf]
          exact Or.inl rfl
      · exact Or.inr ⟨rc, List.mem_cons_of_mem _ hmem, hfill, hval⟩

theorem trimStep_foldl_maxRow (g : Grid) :
    ∀ (l : List (Nat × Nat)) (b0 : Bounds),
      (l.foldl (trimStep g) b0).maxRow = b0.maxRow ∨
      ∃ rc ∈ l, isFilledCell g rc.1 rc.2 = true ∧
        ((rc.1 : Int)) = (l.foldl (trimStep g) b0).maxRow := by
  intro l
  induction l with
  | nil => intro b0; exact Or.inl rfl
  | cons rc0 rest ih =>
      intro b0
      simp only [List.foldl_cons]
      rcases ih (trimStep g b0 rc0) with heq | ⟨rc, hmem, hfill, hval⟩
      · rw [heq]
        unfold trimStep
        by_cases hf : isFilledCell g rc0.1 rc0.2 = true
        · rw [if_pos hf]
          simp only []
          rcases max_cases b0.maxRow ((rc0.1 : Nat) : Int) with ⟨h1, h2⟩ | ⟨h1, h2⟩
          · exact Or.inl h1
          · exact Or.inr ⟨rc0, List.mem_cons_self _ _, hf, h1.symm⟩
        · rw [if_neg hf]
          exact Or.inl rfl
      · exact Or.inr ⟨rc, List.mem_cons_of_mem _ hmem, hfill, hval⟩

theorem trimStep_foldl_minCol (g : Grid) :
    ∀ (l : List (Nat × Nat)) (b0 : Bounds),
      (l.foldl (trimStep g) b0).minCol = b0.minCol ∨
      ∃ rc ∈ l, isFilledCell g rc.1 rc.2 = true ∧
        ((rc.2 : Int)) = (l.foldl (trimStep g) b0).minCol := by
  intro l
  induction l with
  | nil => intro b0; exact Or.inl rfl
  | cons rc0 rest ih =>
      intro b0
      simp only [List.foldl_cons]
      rcases ih (trimStep g b0 rc0) with heq | ⟨rc, hmem, hfill, hval⟩
      · rw [heq]
        unfold trimStep
        by_cases hf : isFilledCell g rc0.1 rc0.2 = true
        · rw [if_pos hf]
          simp only []
          rcases min_cases b0.minCol ((rc0.2 : Nat) : Int) with ⟨h1, h2⟩ | ⟨h1, h2⟩
          · exact Or.inl h1
          · exact Or.inr ⟨rc0, List.mem_cons_self _ _, hf, h1.symm⟩
        · rw [if_neg hf]
          exact Or.inl rfl
      · exact Or.inr ⟨rc, List.mem_cons_of_mem _ hmem, hfill, hval⟩

theorem trimStep_foldl_maxCol (g : Grid) :
    ∀ (l : List (Nat × Nat)) (b0 : Bounds),
      (l.foldl (trimStep g) b0).maxCol = b0.maxCol ∨
      ∃ rc ∈ l, isFilledCell g rc.1 rc.2 = true ∧
        ((rc.2 : Int)) = (l.foldl (trimStep g) b0).maxCol := by
  intro l
  induction l with
  | nil => intro b0; exact Or.inl rfl
  | cons rc0 rest ih =>
      intro b0
      simp only [List.foldl_cons]
      rcases ih (trimStep g b0 rc0) with heq | ⟨rc, hmem, hfill, hval⟩
      · rw [heq]
        unfold trimStep
        by_cases hf : isFilledCell g rc0.1 rc0.2 = true
        · rw [if_pos hf]
          simp only []
          rcases max_cases b0.maxCol ((rc0.2 : Nat) : Int) with ⟨h1, h2⟩ | ⟨h1, h2⟩
          · exact Or.inl h1
          · exact Or.inr ⟨rc0, List.mem_cons_self _ _, hf, h1.symm⟩
        · rw [if_neg hf]
          exact Or.inl rfl
      · exact Or.inr ⟨rc, List.mem_cons_of_mem _ hmem, hfill, hval⟩

theorem trimStep_foldl_nofill (g : Grid) :
    ∀ (l : List (Nat × Nat)) (b0 : Bounds),
      (∀ rc ∈ l, isFilledCell g rc.1 rc.2 = false) →
      l.foldl (trimStep g) b0 = b0 := by
  intro l
  induction l with
  | nil => intro b0 _; rfl
  | cons rc0 rest ih =>
      intro b0 hn
      simp only [List.foldl_cons]
      have h0 : trimStep g b0 rc0 = b0 := by
        unfold trimStep
        rw [if_neg (by rw [hn rc0 (List.mem_cons_self _ _)]; simp)]
      rw [h0]
      exact ih b0 (fun rc h => hn rc (List.mem_cons_of_mem _ h))

/-! ## Sub-rectangle lemmas -/

theorem gcols_of_shape (g : Grid) (R C : Nat) (hsh : GridShape g R C) (hR : 0 < R) :
    gcols g = C := by
  obtain ⟨hlen, hrows⟩ := hsh
  have h0 : 0 < g.length := by omega
  unfold gcols
  rw [List.getD_eq_getElem g [] h0]
  exact hrows _ (List.getElem_mem h0)

theorem grows_of_shape (g : Grid) (R C : Nat) (hsh : GridShape g R C) : grows g = R :=
  hsh.1

theorem GridShape_self (g : Grid) (R C : Nat) (hsh : GridShape g R C) :
    GridShape g (grows g) (gcols g) := by
  refine ⟨rfl, ?_⟩
  intro row hrow
  have h0 : 0 < g.length := List.length_pos.mpr (by rintro rfl; cases hrow)
  rw [hsh.2 row hrow]
  unfold gcols
  rw [List.getD_eq_getElem g [] h0]
  exact (hsh.2 _ (List.getElem_mem h0)).symm

theorem cellOf_shift (pw : PlacedWord) (dr dc : Int) (i : Nat) :
    cellOf { pw with row := pw.row - dr, col := pw.col - dc } i =
      ((cellOf pw i).1 - dr, (cellOf pw i).2 - dc) := by
  unfold cellOf posOf
  cases h : pw.isHorizontal <;> simp [h, Prod.ext_iff] <;> omega

theorem isFilledCell_iff (g : Grid) (r c : Int) :
    isFilledCell g r c = true ↔ ∃ ch, cellAt g r c = some (some ch) := by
  unfold isFilledCell
  cases hc : cellAt g r c with
  | none => simp
  | some cv => cases cv <;> simp

theorem GridShape_dropTake (g : Grid) (R C : Nat) (hsh : GridShape g R C)
    (a h a' h' : Nat) (hah : a + h ≤ R) (hah' : a' + h' ≤ C) :
    GridShape (((g.drop a).take h).map fun row => (row.drop a').take h') h h' := by
  constructor
  · rw [List.length_map, List.length_take, List.length_drop, hsh.1]
    omega
  · intro row hrow
    obtain ⟨row0, hrow0, heq⟩ := List.mem_map.mp hrow
    have hrow0mem : row0 ∈ g := List.mem_of_mem_drop (List.mem_of_mem_take hrow0)
    rw [← heq, List.length_take, List.length_drop, hsh.2 row0 hrow0mem]
    omega

theorem cellAt_dropTake (g : Grid) (R C : Nat) (hsh : GridShape g R C)
    (a h a' h' : Nat) (hah : a + h ≤ R) (hah' : a' + h' ≤ C) (r c : Int) :
    cellAt (((g.drop a).take h).map fun row => (row.drop a').take h') r c =
      if 0 ≤ r ∧ r < (h : Int) ∧ 0 ≤ c ∧ c < (h' : Int) then
        cellAt g (r + (a : Int)) (c + (a' : Int))
      else none := by
  by_cases hr : 0 ≤ r
  · by_cases hc : 0 ≤ c
    · rw [cellAt_eq_getElem _ r c hr hc]
      by_cases hrh : r.toNat < h
      · have hgr : ((g.drop a).take h)[r.toNat]? = g[a + r.toNat]? := by
          rw [List.getElem?_take_of_lt hrh, List.getElem?_drop]
        have hin : a + r.toNat < g.length := by rw [hsh.1]; omega
        rw [List.getElem?_map, hgr, List.getElem?_eq_getElem hin]
        simp only [Option.map_some', Option.getD_some]
        have hrowlen : g[a + r.toNat].length = C := hsh.2 _ (List.getElem_mem hin)
        by_cases hch : c.toNat < h'
        · rw [if_pos ⟨hr, by omega, hc, by omega⟩]
          have hra : (r + (a : Int)) = ((a + r.toNat : Nat) : Int) := by omega
          have hca : (c + (a' : Int)) = ((a' + c.toNat : Nat) : Int) := by omega
          rw [hra, hca, cellAt_eq_getElem g _ _ (by omega) (by omega)]
          rw [List.getElem?_take_of_lt (by omega), List.getElem?_drop]
          simp only [Int.toNat_natCast]
          rw [List.getElem?_eq_getElem hin]
          simp only [Option.getD_some]
        · rw [if_neg (by omega)]
          rw [List.getElem?_eq_none]
          rw [List.length_take, List.length_drop, hrowlen]
          omega
      · rw [if_neg (by omega)]
        have hnone : ((g.drop a).take h)[r.toNat]? = none :=
          List.getElem?_eq_none (by rw [List.length_take, List.length_drop]; omega)
        rw [List.getElem?_map, hnone]
        simp
    · rw [cellAt_of_neg _ r c (Or.inr (by omega)), if_neg (by omega)]
  · rw [cellAt_of_neg _ r c (Or.inl (by omega)), if_neg (by omega)]

theorem trimBounds_contains (g : Grid) (R C : Nat) (hsh : GridShape g R C) (r c : Int)
    (hf : isFilledCell g r c = true) :
    (trimBounds g).minRow ≤ r ∧ r ≤ (trimBounds g).maxRow ∧
    (trimBounds g).minCol ≤ c ∧ c ≤ (trimBounds g).maxCol := by
  obtain ⟨ch, hcell⟩ := (isFilledCell_iff g r c).mp hf
  obtain ⟨hr, hrR, hc, hcC⟩ := cellAt_bounds g R C hsh r c _ hcell
  have hrn : ((r.toNat : Nat) : Int) = r := by omega
  have hcn : ((c.toNat : Nat) : Int) = c := by omega
  have hmem : ((r.toNat, c.toNat) : Nat × Nat) ∈ allPositions g := by
    rw [mem_allPositions]
    constructor
    · rw [grows_of_shape g R C hsh]; omega
    · rw [gcols_of_shape g R C hsh (by omega)]; omega
  have hf' : isFilledCell g ((r.toNat : Nat) : Int) ((c.toNat : Nat) : Int) = true := by
    rw [hrn, hcn]; exact hf
  have := trimStep_foldl_contains g (allPositions g)
    ⟨(grows g : Int), -1, (gcols g : Int), -1⟩ (r.toNat, c.toNat) hmem hf'
  unfold trimBounds
  rw [← hrn, ← hcn]
  exact this

theorem trimBounds_facts (g : Grid) (R C : Nat) (hsh : GridShape g R C)
    (rc0 : Nat × Nat) (hmem0 : rc0 ∈ allPositions g)
    (hfill0 : isFilledCell g rc0.1 rc0.2 = true) :
    0 ≤ (trimBounds g).minRow ∧ (trimBounds g).minRow ≤ (trimBounds g).maxRow ∧
    (trimBounds g).maxRow < (R : Int) ∧ 0 ≤ (trimBounds g).minCol ∧
    (trimBounds g).minCol ≤ (trimBounds g).maxCol ∧ (trimBounds g).maxCol < (C : Int) := by
  have hc0 := trimBounds_contains g R C hsh rc0.1 rc0.2 hfill0
  have hrc01 : (rc0.1 : Int) < (R : Int) := by
    have hm := (mem_allPositions g rc0).mp hmem0
    rw [grows_of_shape g R C hsh] at hm
    exact_mod_cast hm.1
  have h0R : 0 < R := by omega
  have hrc02 : (rc0.2 : Int) < (C : Int) := by
    have hm := (mem_allPositions g rc0).mp hmem0
    rw [gcols_of_shape g R C hsh h0R] at hm
    exact_mod_cast hm.2
  have hminR := trimStep_foldl_minRow g (allPositions g)
    ⟨(grows g : Int), -1, (gcols g : Int), -1⟩
  have hmaxR := trimStep_foldl_maxRow g (allPositions g)
    ⟨(grows g : Int), -1, (gcols g : Int), -1⟩
  have hminC := trimStep_foldl_minCol g (allPositions g)
    ⟨(grows g : Int), -1, (gcols g : Int), -1⟩
  have hmaxC := trimStep_foldl_maxCol g (allPositions g)
    ⟨(grows g : Int), -1, (gcols g : Int), -1⟩
  unfold trimBounds at hc0 ⊢
  rcases hminR with h1 | ⟨rc, _, hfc, hv⟩
  · exfalso
    have h1' : (List.foldl (trimStep g)
        ⟨(grows g : Int), -1, (gcols g : Int), -1⟩ (allPositions g)).minRow = (R : Int) := by
      rw [h1, grows_of_shape g R C hsh]
    omega
  all_goals rcases hmaxR with h2 | ⟨rc2, _, hfc2, hv2⟩
  · exfalso
    have h2' : (List.foldl (trimStep g)
        ⟨(grows g : Int), -1, (gcols g : Int), -1⟩ (allPositions g)).maxRow = -1 := by
      rw [h2]
    omega
  all_goals rcases hminC with h3 | ⟨rc3, _, hfc3, hv3⟩
  · exfalso
    have h3' : (List.foldl (trimStep g)
        ⟨(grows g : Int), -1, (gcols g : Int), -1⟩ (allPositions g)).minCol = (C : Int) := by
      rw [h3, gcols_of_shape g R C hsh h0R]
    omega
  all_goals rcases hmaxC with h4 | ⟨rc4, _, hfc4, hv4⟩
  · exfalso
    have h4' : (List.foldl (trimStep g)
        ⟨(grows g : Int), -1, (gcols g : Int), -1⟩ (allPositions g)).maxCol = -1 := by
      rw [h4]
    omega
  have hrc21 : (rc2.1 : Int) < (R : Int) := by
    obtain ⟨chx, hcx⟩ := (isFilledCell_iff g rc2.1 rc2.2).mp hfc2
    have := cellAt_bounds g R C hsh _ _ _ hcx
    omega
  have hrc42 : (rc4.2 : Int) < (C : Int) := by
    obtain ⟨chx, hcx⟩ := (isFilledCell_iff g rc4.1 rc4.2).mp hfc4
    have := cellAt_bounds g R C hsh _ _ _ hcx
    omega
  refine ⟨by omega, by omega, by omega, by omega, by omega, by omega⟩

theorem trimGrid_eq_self_of_nofill (s : GenState)
    (h : ∀ rc ∈ allPositions s.grid, isFilledCell s.grid rc.1 rc.2 = false) :
    trimGrid s = s := by
  have hb : trimBounds s.grid = ⟨(grows s.grid : Int), -1, (gcols s.grid : Int), -1⟩ :=
    trimStep_foldl_nofill s.grid (allPositions s.grid) _ h
  simp only [trimGrid, hb]
  rw [if_neg (by intro hcon; omega)]

theorem trimGrid_ok (R C : Nat) (s : GenState) (hsh : GridShape s.grid R C)
    (hg : GoodState s) :
    ∃ R' C', GridShape (trimGrid s).grid R' C' ∧ GoodState (trimGrid s) := by
  by_cases hfill : ∃ rc ∈ allPositions s.grid, isFilledCell s.grid rc.1 rc.2 = true
  · obtain ⟨rc0, hm0, hf0⟩ := hfill
    obtain ⟨f1, f2, f3, f4, f5, f6⟩ := trimBounds_facts s.grid R C hsh rc0 hm0 hf0
    have hcond : (trimBounds s.grid).minRow ≤ (trimBounds s.grid).maxRow ∧
        (trimBounds s.grid).minCol ≤ (trimBounds s.grid).maxCol := ⟨f2, f5⟩
    have hgr : (trimGrid s).grid =
        ((s.grid.drop (trimBounds s.grid).minRow.toNat).take
            ((trimBounds s.grid).maxRow - (trimBounds s.grid).minRow + 1).toNat).map
          (fun row => (row.drop (trimBounds s.grid).minCol.toNat).take
            ((trimBounds s.grid).maxCol - (trimBounds s.grid).minCol + 1).toNat) := by
      simp only [trimGrid]
      rw [if_pos hcond]
    have hpw : (trimGrid s).placedWords = s.placedWords.map fun pw =>
        { pw with
          row := pw.row - (trimBounds s.grid).minRow
          col := pw.col - (trimBounds s.grid).minCol } := by
      simp only [trimGrid]
      rw [if_pos hcond]
    have hah : (trimBounds s.grid).minRow.toNat +
        ((trimBounds s.grid).maxRow - (trimBounds s.grid).minRow + 1).toNat ≤ R := by omega
    have hah' : (trimBounds s.grid).minCol.toNat +
        ((trimBounds s.grid).maxCol - (trimBounds s.grid).minCol + 1).toNat ≤ C := by omega
    refine ⟨((trimBounds s.grid).maxRow - (trimBounds s.grid).minRow + 1).toNat,
      ((trimBounds s.grid).maxCol - (trimBounds s.grid).minCol + 1).toNat, ?_, ?_, ?_⟩
    · rw [hgr]
      exact GridShape_dropTake s.grid R C hsh _ _ _ _ hah hah'
    · intro pw' hpw' i hi
      rw [hpw] at hpw'
      obtain ⟨pw, hpwm, hpw'eq⟩ := List.mem_map.mp hpw'
      rw [← hpw'eq] at hi ⊢
      have hcell := hg.1 pw hpwm i hi
      have hbnd := cellAt_bounds s.grid R C hsh _ _ _ hcell
      have hfillcell : isFilledCell s.grid (cellOf pw i).1 (cellOf pw i).2 = true :=
        (isFilledCell_iff _ _ _).mpr ⟨_, hcell⟩
      have hbox := trimBounds_contains s.grid R C hsh _ _ hfillcell
      rw [hgr, cellOf_shift]
      rw [cellAt_dropTake s.grid R C hsh _ _ _ _ hah hah']
      rw [if_pos (by constructor; omega; constructor; omega; constructor; omega; omega)]
      have e1 : ((cellOf pw i).1 - (trimBounds s.grid).minRow) +
          ((trimBounds s.grid).minRow.toNat : Int) = (cellOf pw i).1 := by omega
      have e2 : ((cellOf pw i).2 - (trimBounds s.grid).minCol) +
          ((trimBounds s.grid).minCol.toNat : Int) = (cellOf pw i).2 := by omega
      rw [e1, e2]
      exact hcell
    · intro r c ch hcell'
      rw [hgr, cellAt_dropTake s.grid R C hsh _ _ _ _ hah hah'] at hcell'
      rw [hpw]
      by_cases hin : 0 ≤ r ∧ r < (((trimBounds s.grid).maxRow - (trimBounds s.grid).minRow
          + 1).toNat : Int) ∧ 0 ≤ c ∧ c < (((trimBounds s.grid).maxCol -
          (trimBounds s.grid).minCol + 1).toNat : Int)
      · rw [if_pos hin] at hcell'
        obtain ⟨pw, hpwm, i, hi, hpos, hch⟩ := hg.2 _ _ _ hcell'
        refine ⟨{ pw with
          row := pw.row - (trimBounds s.grid).minRow
          col := pw.col - (trimBounds s.grid).minCol },
          List.mem_map.mpr ⟨pw, hpwm, rfl⟩, i, hi, ?_, hch⟩
        rw [cellOf_shift, hpos]
        rw [Prod.ext_iff]
        constructor <;> simp <;> omega
      · rw [if_neg hin] at hcell'
        exact absurd hcell' (by simp)
  · push_neg at hfill
    have h' : ∀ rc ∈ allPositions s.grid, isFilledCell s.grid rc.1 rc.2 = false := by
      intro rc hrc
      simpa using hfill rc hrc
    rw [trimGrid_eq_self_of_nofill s h']
    exact ⟨R, C, hsh, hg⟩

/-! ## Replay-characterization lemmas -/

theorem letterAtCell_covers (pw : PlacedWord) (r c : Int) (ch : Char)
    (h : letterAtCell pw r c = some ch) : Covers pw r c ch := by
  unfold letterAtCell at h
  obtain ⟨i, hi, hf⟩ := List.exists_of_findSome?_eq_some h
  by_cases hc : cellOf pw i = (r, c)
  · rw [if_pos hc] at hf
    exact ⟨i, List.mem_range.mp hi, hc, Option.some.inj hf⟩
  · rw [if_neg hc] at hf
    cases hf

theorem covers_letterAtCell (pw : PlacedWord) (r c : Int) (ch : Char)
    (h : Covers pw r c ch) : letterAtCell pw r c = some ch := by
  obtain ⟨i, hi, hcell, hch⟩ := h
  unfold letterAtCell
  have huniq : ∀ j, cellOf pw j = (r, c) → j = i := by
    intro j hcj
    exact posOf_inj pw.row pw.col pw.isHorizontal j i (by
      unfold cellOf at hcj hcell; rw [hcj, hcell])
  have hgen : ∀ (l : List Nat), i ∈ l →
      (l.findSome? fun j =>
          if cellOf pw j = (r, c) then some (pw.word.getD j ' ') else none) =
        some (pw.word.getD i ' ') := by
    intro l
    induction l with
    | nil => intro him; cases him
    | cons j rest ih =>
        intro him
        rw [List.findSome?_cons]
        by_cases hcj : cellOf pw j = (r, c)
        · have hji : j = i := huniq j hcj
          subst hji
          rw [if_pos hcj]
        · rw [if_neg hcj]
          rcases List.mem_cons.mp him with heq | hmem
          · exact absurd hcell (by rw [heq]; exact hcj)
          · exact ih hmem
  rw [hgen (List.range pw.word.length) (List.mem_range.mpr hi), hch]

theorem letterAtCell_none (pw : PlacedWord) (r c : Int)
    (h : ∀ i, i < pw.word.length → cellOf pw i ≠ (r, c)) :
    letterAtCell pw r c = none := by
  unfold letterAtCell
  rw [List.findSome?_eq_none]
  intro i hi
  rw [if_neg (h i (List.mem_range.mp hi))]

theorem coverVal_append_one (pws : List PlacedWord) (pw : PlacedWord) (r c : Int) :
    coverVal (pws ++ [pw]) r c =
      match letterAtCell pw r c with
      | some ch => some ch
      | none => coverVal pws r c := by
  unfold coverVal
  rw [List.foldl_append]
  rfl

theorem coverVal_some (r c : Int) (pws : List PlacedWord) (ch : Char)
    (h : coverVal pws r c = some ch) :
    ∃ pw ∈ pws, letterAtCell pw r c = some ch := by
  have hgen : ∀ (l : List PlacedWord) (v : Option Char),
      l.foldl
          (fun v pw =>
            match letterAtCell pw r c with
            | some ch0 => some ch0
            | none => v) v = some ch →
      (∃ pw ∈ l, letterAtCell pw r c = some ch) ∨ v = some ch := by
    intro l
    induction l with
    | nil => intro v hv; exact Or.inr hv
    | cons pw rest ih =>
        intro v hv
        rw [List.foldl_cons] at hv
        rcases ih _ hv with ⟨pw', hm, hl⟩ | hb
        · exact Or.inl ⟨pw', List.mem_cons_of_mem _ hm, hl⟩
        · cases hcl : letterAtCell pw r c with
          | some ch' =>
              simp only [hcl] at hb
              exact Or.inl ⟨pw, List.mem_cons_self _ _, by rw [hcl, hb]⟩
          | none =>
              simp only [hcl] at hb
              exact Or.inr hb
  replace h : pws.foldl
      (fun v pw =>
        match letterAtCell pw r c with
        | some ch0 => some ch0
        | none => v) none = some ch := h
  rcases hgen pws none h with hc | hnone
  · exact hc
  · cases hnone

theorem coverVal_isSome (r c : Int) (pws : List PlacedWord) (pw0 : PlacedWord)
    (hm : pw0 ∈ pws) (hs : (letterAtCell pw0 r c).isSome = true) :
    ∃ ch, coverVal pws r c = some ch := by
  have hgen : ∀ (l : List PlacedWord) (v : Option Char),
      ((∃ pw ∈ l, (letterAtCell pw r c).isSome = true) ∨ v.isSome = true) →
      (l.foldl
          (fun v pw =>
            match letterAtCell pw r c with
            | some ch0 => some ch0
            | none => v) v).isSome = true := by
    intro l
    induction l with
    | nil =>
        intro v hv
        rcases hv with ⟨pw, hmem, _⟩ | hv
        · cases hmem
        · simpa using hv
    | cons pw rest ih =>
        intro v hv
        rw [List.foldl_cons]
        apply ih
        cases hcl : letterAtCell pw r c with
        | some ch0 => exact Or.inr (by simp [hcl])
        | none =>
            rcases hv with ⟨pw', hm', hs'⟩ | hv
            · rcases List.mem_cons.mp hm' with heq | hmem
              · rw [heq, hcl] at hs'
                cases hs'
              · exact Or.inl ⟨pw', hmem, hs'⟩
            · exact Or.inr (by simpa [hcl] using hv)
  have hres : (coverVal pws r c).isSome = true := by
    have := hgen pws none (Or.inl ⟨pw0, hm, hs⟩)
    exact this
  exact Option.isSome_iff_exists.mp hres

theorem GridShape_replayGrid (R C : Nat) (pws : List PlacedWord) :
    GridShape (replayGrid R C pws) R C := by
  unfold replayGrid
  have hgen : ∀ (l : List PlacedWord) (g : Grid), GridShape g R C →
      GridShape
        (l.foldl (fun g pw => writeWord g pw.word pw.row pw.col pw.isHorizontal) g)
        R C := by
    intro l
    induction l with
    | nil => intro g hg; exact hg
    | cons pw rest ih =>
        intro g hg
        exact ih _ (GridShape_writeWord _ _ _ _ _ _ _ hg)
  exact hgen pws _ (GridShape_initializeGrid R C)

theorem cellAt_none_of_out (g : Grid) (R C : Nat) (hsh : GridShape g R C) (r c : Int)
    (h : ¬(0 ≤ r ∧ r < (R : Int) ∧ 0 ≤ c ∧ c < (C : Int))) : cellAt g r c = none := by
  cases hc : cellAt g r c with
  | none => rfl
  | some v => exact absurd (cellAt_bounds g R C hsh r c v hc) h

theorem cellAt_replayGrid (R C : Nat) (r c : Int) :
    ∀ pws : List PlacedWord,
      (∀ pw ∈ pws, ∀ i < pw.word.length,
        0 ≤ (cellOf pw i).1 ∧ (cellOf pw i).1 < (R : Int) ∧
        0 ≤ (cellOf pw i).2 ∧ (cellOf pw i).2 < (C : Int)) →
      cellAt (replayGrid R C pws) r c =
        if 0 ≤ r ∧ r < (R : Int) ∧ 0 ≤ c ∧ c < (C : Int) then some (coverVal pws r c)
        else none := by
  intro pws
  induction pws using List.reverseRecOn with
  | nil =>
      intro _
      by_cases hb : 0 ≤ r ∧ r < (R : Int) ∧ 0 ≤ c ∧ c < (C : Int)
      · rw [if_pos hb]
        exact cellAt_initializeGrid R C r c hb.1 hb.2.1 hb.2.2.1 hb.2.2.2
      · rw [if_neg hb]
        exact cellAt_none_of_out _ R C (GridShape_replayGrid R C []) r c hb
  | append_singleton pws pw ih =>
      intro hin
      have hinp : ∀ pw' ∈ pws, ∀ i < pw'.word.length,
          0 ≤ (cellOf pw' i).1 ∧ (cellOf pw' i).1 < (R : Int) ∧
          0 ≤ (cellOf pw' i).2 ∧ (cellOf pw' i).2 < (C : Int) :=
        fun pw' hm => hin pw' (List.mem_append_left _ hm)
      rw [replayGrid_append_one]
      by_cases hcov : ∃ i, i < pw.word.length ∧ cellOf pw i = (r, c)
      · obtain ⟨i, hi, hci⟩ := hcov
        have hbnd := hin pw (List.mem_append_right _ (List.mem_singleton.mpr rfl)) i hi
        rw [hci] at hbnd
        have hb : 0 ≤ r ∧ r < (R : Int) ∧ 0 ≤ c ∧ c < (C : Int) := hbnd
        rw [if_pos hb]
        have hsome : (cellAt (replayGrid R C pws) r c).isSome = true := by
          obtain ⟨v, hv⟩ := cellAt_isSome_of_bounds _ R C (GridShape_replayGrid R C pws)
            r c hb.1 hb.2.1 hb.2.2.1 hb.2.2.2
          rw [hv]; rfl
        rw [cellAt_writeWord_covered _ _ _ _ _ i hi r c hci hsome]
        rw [coverVal_append_one,
          covers_letterAtCell pw r c (pw.word.getD i ' ') ⟨i, hi, hci, rfl⟩]
      · push_neg at hcov
        rw [cellAt_writeWord_not_covered _ _ _ _ _ r c (fun i hi => hcov i hi)]
        rw [ih hinp, coverVal_append_one, letterAtCell_none pw r c (fun i hi => hcov i hi)]

theorem grid_eq_of_cellAt (g1 g2 : Grid) (R C : Nat) (h1 : GridShape g1 R C)
    (h2 : GridShape g2 R C) (h : ∀ r c : Int, cellAt g1 r c = cellAt g2 r c) :
    g1 = g2 := by
  apply List.ext_getElem (by rw [h1.1, h2.1])
  intro i hi1 hi2
  apply List.ext_getElem
  · rw [h1.2 _ (List.getElem_mem hi1), h2.2 _ (List.getElem_mem hi2)]
  · intro j hj1 hj2
    have hc := h (i : Int) (j : Int)
    rw [cellAt_eq_getElem g1 _ _ (by omega) (by omega),
      cellAt_eq_getElem g2 _ _ (by omega) (by omega)] at hc
    simp only [Int.toNat_natCast] at hc
    rw [List.getElem?_eq_getElem hi1, List.getElem?_eq_getElem hi2] at hc
    simp only [Option.getD_some] at hc
    rw [List.getElem?_eq_getElem hj1, List.getElem?_eq_getElem hj2] at hc
    exact Option.some.inj hc

theorem good_grid_eq_replay (g : Grid) (pws : List PlacedWord) (R C : Nat)
    (hsh : GridShape g R C)
    (h1 : ∀ pw ∈ pws, ∀ i < pw.word.length,
      cellAt g (cellOf pw i).1 (cellOf pw i).2 = some (some (pw.word.getD i ' ')))
    (h2 : ∀ (r c : Int) (ch : Char), cellAt g r c = some (some ch) →
      ∃ pw ∈ pws, Covers pw r c ch) :
    g = replayGrid R C pws := by
  have hin : ∀ pw ∈ pws, ∀ i < pw.word.length,
      0 ≤ (cellOf pw i).1 ∧ (cellOf pw i).1 < (R : Int) ∧
      0 ≤ (cellOf pw i).2 ∧ (cellOf pw i).2 < (C : Int) := by
    intro pw hm i hi
    exact cellAt_bounds g R C hsh _ _ _ (h1 pw hm i hi)
  apply grid_eq_of_cellAt g _ R C hsh (GridShape_replayGrid R C pws)
  intro r c
  rw [cellAt_replayGrid R C r c pws hin]
  by_cases hb : 0 ≤ r ∧ r < (R : Int) ∧ 0 ≤ c ∧ c < (C : Int)
  · rw [if_pos hb]
    obtain ⟨v, hv⟩ := cellAt_isSome_of_bounds g R C hsh r c hb.1 hb.2.1 hb.2.2.1 hb.2.2.2
    rw [hv]
    cases v with
    | none =>
        cases hcv : coverVal pws r c with
        | none => rfl
        | some ch =>
            obtain ⟨pw, hm, hl⟩ := coverVal_some r c pws ch hcv
            obtain ⟨i, hi, hci, hch⟩ := letterAtCell_covers pw r c ch hl
            have hcell := h1 pw hm i hi
            rw [hci] at hcell
            have hcell2 : cellAt g r c = some (some (pw.word.getD i ' ')) := hcell
            rw [hv] at hcell2
            simp at hcell2
    | some ch =>
        obtain ⟨pw, hm, hcov⟩ := h2 r c ch hv
        have hl := covers_letterAtCell pw r c ch hcov
        obtain ⟨ch', hcv⟩ := coverVal_isSome r c pws pw hm (by rw [hl]; rfl)
        obtain ⟨pw', hm', hl'⟩ := coverVal_some r c pws ch' hcv
        obtain ⟨i', hi', hci', hch'⟩ := letterAtCell_covers pw' r c ch' hl'
        have hcell' := h1 pw' hm' i' hi'
        rw [hci'] at hcell'
        have hcell2 : cellAt g r c = some (some (pw'.word.getD i' ' ')) := hcell'
        rw [hv] at hcell2
        have hche : ch = ch' := by
          have h3 := Option.some.inj (Option.some.inj hcell2)
          rw [h3, hch']
        rw [hcv, hche]
  · rw [if_neg hb]
    exact cellAt_none_of_out g R C hsh r c hb

theorem generate_ok_state (ws : List Word) (p : Puzzle) (h : generate ws = .ok p) :
    ∃ (s : GenState) (R C : Nat), p.grid = s.grid ∧ p.words = s.placedWords ∧
      GridShape s.grid R C ∧ GoodState s := by
  unfold generate at h
  by_cases hws : ws = []
  · rw [if_pos hws] at h
    cases h
  · rw [if_neg hws] at h
    replace h : (Except.ok (createPuzzleData (trimGrid (placeWords
        (sortWordsByIntersectionPotential ws)
        ⟨initializeGrid (calculateGridSize (sortWordsByIntersectionPotential ws)).1
            (calculateGridSize (sortWordsByIntersectionPotential ws)).2, [], 1⟩).1)) :
        Except String Puzzle) = .ok p := h
    injection h with h2
    subst h2
    have hbase := initial_ok (calculateGridSize (sortWordsByIntersectionPotential ws)).1
      (calculateGridSize (sortWordsByIntersectionPotential ws)).2
    have hplace := placeWords_ok (calculateGridSize (sortWordsByIntersectionPotential ws)).1
      (calculateGridSize (sortWordsByIntersectionPotential ws)).2
      (sortWordsByIntersectionPotential ws)
      ⟨initializeGrid (calculateGridSize (sortWordsByIntersectionPotential ws)).1
          (calculateGridSize (sortWordsByIntersectionPotential ws)).2, [], 1⟩
      ⟨hbase.1, hbase.2.1, hbase.2.2⟩
    obtain ⟨R', C', hsh', hg'⟩ := trimGrid_ok
      (calculateGridSize (sortWordsByIntersectionPotential ws)).1
      (calculateGridSize (sortWordsByIntersectionPotential ws)).2
      _ hplace.1 hplace.2.1
    exact ⟨trimGrid (placeWords (sortWordsByIntersectionPotential ws)
      ⟨initializeGrid (calculateGridSize (sortWordsByIntersectionPotential ws)).1
          (calculateGridSize (sortWordsByIntersectionPotential ws)).2, [], 1⟩).1,
      R', C', rfl, rfl, hsh', hg'⟩

/-- C5: for every input list accepted by `generate`, the output grid is
exactly the replay of the final placed-word list onto an empty grid of the
output grid's own dimensions; every cell covered by a placed word holds
that word's letter at that position (so no two placed words disagree on a
shared cell), and every non-empty grid cell is covered by at least one
placed word. -/
theorem generate_grid_is_replay (ws : List Word) (p : Puzzle)
    (h : generate ws = .ok p) :
    p.grid = replayGrid (grows p.grid) (gcols p.grid) p.words ∧
    (∀ pw ∈ p.words, ∀ i < pw.word.length,
      cellAt p.grid (cellOf pw i).1 (cellOf pw i).2 = some (some (pw.word.getD i ' '))) ∧
    (∀ (r c : Int) (ch : Char), cellAt p.grid r c = some (some ch) →
      ∃ pw ∈ p.words, Covers pw r c ch) := by
  obtain ⟨s, R, C, hg, hw, hsh, hgood⟩ := generate_ok_state ws p h
  rw [hg, hw]
  exact ⟨good_grid_eq_replay s.grid s.placedWords (grows s.grid) (gcols s.grid)
    (GridShape_self s.grid R C hsh) hgood.1 hgood.2, hgood.1, hgood.2⟩

theorem generate_grid_is_replay_witness :
    ∃ p : Puzzle, generate [['a','b']] = .ok p ∧
      (p.grid = replayGrid (grows p.grid) (gcols p.grid) p.words ∧
      (∀ pw ∈ p.words, ∀ i < pw.word.length,
        cellAt p.grid (cellOf pw i).1 (cellOf pw i).2 =
          some (some (pw.word.getD i ' '))) ∧
      (∀ (r c : Int) (ch : Char), cellAt p.grid r c = some (some ch) →
        ∃ pw ∈ p.words, Covers pw r c ch)) := by
  have hs : (generate [['a','b']]).toOption.isSome = true := by
    with_unfolding_all decide
  cases hE : generate [['a','b']] with
  | error e =>
      rw [hE] at hs
      exact absurd hs (by simp [Except.toOption])
  | ok p => exact ⟨p, rfl, generate_grid_is_replay [['a','b']] p hE⟩

/-- C8 is false as stated: `calculateGridSize` caps both dimensions at 50,
and the trim step leaves an unfilled grid unchanged, so for the
single-word (hence deduplicated, non-empty) input of one 51-letter word
the returned grid is `50 × 50` — strictly smaller than the longest input
word's length in both dimensions. -/
theorem generate_grid_below_longest_word :
    (List.replicate 51 'b').length = 51 ∧
    (generate [List.replicate 51 'b']).toOption.map
      (fun p => (grows p.grid, gcols p.grid)) = some (50, 50) ∧
    50 < 51 :=
  ⟨by decide, by with_unfolding_all decide, by decide⟩

/-- C8 (amended): every word actually placed in the output puzzle fits its
binding dimension — a horizontal word's length is at most the output grid's
column count, a vertical word's length at most its row count; only an
input word that the engine fails to place (such as a word longer than the
50-capped initial grid) escapes the dimension guarantee. -/
theorem placed_word_fits_binding_dimension (ws : List Word) (p : Puzzle)
    (h : generate ws = .ok p) :
    ∀ pw ∈ p.words,
      pw.word.length ≤ if pw.isHorizontal then gcols p.grid else grows p.grid := by
  obtain ⟨s, R, C, hg, hw, hsh, hgood⟩ := generate_ok_state ws p h
  rw [hg, hw]
  intro pw hm
  by_cases hlen : pw.word.length = 0
  · rw [hlen]
    omega
  · have h0 := hgood.1 pw hm 0 (by omega)
    have hL := hgood.1 pw hm (pw.word.length - 1) (by omega)
    have hb0 := cellAt_bounds s.grid R C hsh _ _ _ h0
    have hbL := cellAt_bounds s.grid R C hsh _ _ _ hL
    have hRpos : 0 < R := by
      have := hb0.1
      have := hb0.2.1
      omega
    unfold cellOf posOf at hb0 hbL
    rw [gcols_of_shape s.grid R C hsh hRpos, grows_of_shape s.grid R C hsh]
    cases hH : pw.isHorizontal with
    | true =>
        rw [hH] at hb0 hbL
        simp only [if_pos] at hb0 hbL
        rw [if_pos rfl]
        omega
    | false =>
        rw [hH] at hb0 hbL
        simp only [Bool.false_eq_true, if_neg, if_false] at hb0 hbL
        rw [if_neg Bool.false_ne_true]
        omega

theorem placed_word_fits_binding_dimension_witness :
    ∃ p : Puzzle, generate [['c','a','t']] = .ok p ∧
      ∀ pw ∈ p.words,
        pw.word.length ≤ if pw.isHorizontal then gcols p.grid else grows p.grid := by
  have hs : (generate [['c','a','t']]).toOption.isSome = true := by
    with_unfolding_all decide
  cases hE : generate [['c','a','t']] with
  | error e =>
      rw [hE] at hs
      exact absurd hs (by simp [Except.toOption])
  | ok p => exact ⟨p, rfl, placed_word_fits_binding_dimension [['c','a','t']] p hE⟩

theorem trimBounds_achieved (g : Grid) (R C : Nat) (hsh : GridShape g R C)
    (rc0 : Nat × Nat) (hmem0 : rc0 ∈ allPositions g)
    (hf0 : isFilledCell g (rc0.1 : Int) (rc0.2 : Int) = true) :
    (∃ rc ∈ allPositions g, isFilledCell g (rc.1 : Int) (rc.2 : Int) = true ∧
      (rc.1 : Int) = (trimBounds g).minRow) ∧
    (∃ rc ∈ allPositions g, isFilledCell g (rc.1 : Int) (rc.2 : Int) = true ∧
      (rc.1 : Int) = (trimBounds g).maxRow) ∧
    (∃ rc ∈ allPositions g, isFilledCell g (rc.1 : Int) (rc.2 : Int) = true ∧
      (rc.2 : Int) = (trimBounds g).minCol) ∧
    (∃ rc ∈ allPositions g, isFilledCell g (rc.1 : Int) (rc.2 : Int) = true ∧
      (rc.2 : Int) = (trimBounds g).maxCol) := by
  obtain ⟨f1, f2, f3, f4, f5, f6⟩ := trimBounds_facts g R C hsh rc0 hmem0 hf0
  have hR : 0 < R := by omega
  refine ⟨?_, ?_, ?_, ?_⟩
  · rcases trimStep_foldl_minRow g (allPositions g)
        ⟨(grows g : Int), -1, (gcols g : Int), -1⟩ with heq | hach
    · exfalso
      have hv : (trimBounds g).minRow = (grows g : Int) := heq
      rw [grows_of_shape g R C hsh] at hv
      omega
    · exact hach
  · rcases trimStep_foldl_maxRow g (allPositions g)
        ⟨(grows g : Int), -1, (gcols g : Int), -1⟩ with heq | hach
    · exfalso
      have hv : (trimBounds g).maxRow = (-1 : Int) := heq
      omega
    · exact hach
  · rcases trimStep_foldl_minCol g (allPositions g)
        ⟨(grows g : Int), -1, (gcols g : Int), -1⟩ with heq | hach
    · exfalso
      have hv : (trimBounds g).minCol = (gcols g : Int) := heq
      rw [gcols_of_shape g R C hsh hR] at hv
      omega
    · exact hach
  · rcases trimStep_foldl_maxCol g (allPositions g)
        ⟨(grows g : Int), -1, (gcols g : Int), -1⟩ with heq | hach
    · exfalso
      have hv : (trimBounds g).maxCol = (-1 : Int) := heq
      omega
    · exact hach

/-- C6: the final step of `generate` is `trimGrid`, and on any rectangular
state it behaves as claimed: if no cell is filled the state is unchanged;
if some cell is filled, the grid is replaced by exactly the bounding-box
sub-rectangle of the filled cells (its dimensions are the box's extents,
each cell is the corresponding pre-trim cell, every filled cell lies in
the box, and each border row and border column of the trimmed grid keeps
at least one filled cell), and every placed word's coordinates are shifted
by the box origin `(minRow, minCol)`. -/
theorem trimGrid_bounding_box (R C : Nat) (s : GenState)
    (hsh : GridShape s.grid R C) :
    ((∀ r c : Int, isFilledCell s.grid r c = false) → trimGrid s = s) ∧
    (∀ r0 c0 : Int, isFilledCell s.grid r0 c0 = true →
      ((grows (trimGrid s).grid : Int) =
          (trimBounds s.grid).maxRow - (trimBounds s.grid).minRow + 1 ∧
        (gcols (trimGrid s).grid : Int) =
          (trimBounds s.grid).maxCol - (trimBounds s.grid).minCol + 1) ∧
      (∀ r c : Int, cellAt (trimGrid s).grid r c =
        if 0 ≤ r ∧ r ≤ (trimBounds s.grid).maxRow - (trimBounds s.grid).minRow ∧
            0 ≤ c ∧ c ≤ (trimBounds s.grid).maxCol - (trimBounds s.grid).minCol then
          cellAt s.grid (r + (trimBounds s.grid).minRow)
            (c + (trimBounds s.grid).minCol)
        else none) ∧
      (∀ r c : Int, isFilledCell s.grid r c = true →
        (trimBounds s.grid).minRow ≤ r ∧ r ≤ (trimBounds s.grid).maxRow ∧
        (trimBounds s.grid).minCol ≤ c ∧ c ≤ (trimBounds s.grid).maxCol) ∧
      ((∃ c : Int, isFilledCell (trimGrid s).grid 0 c = true) ∧
        (∃ c : Int, isFilledCell (trimGrid s).grid
          ((grows (trimGrid s).grid : Int) - 1) c = true) ∧
        (∃ r : Int, isFilledCell (trimGrid s).grid r 0 = true) ∧
        (∃ r : Int, isFilledCell (trimGrid s).grid r
          ((gcols (trimGrid s).grid : Int) - 1) = true)) ∧
      (trimGrid s).placedWords = s.placedWords.map fun pw =>
        { pw with
          row := pw.row - (trimBounds s.grid).minRow
          col := pw.col - (trimBounds s.grid).minCol }) := by
  constructor
  · intro hnone
    exact trimGrid_eq_self_of_nofill s (fun rc _ => hnone rc.1 rc.2)
  · intro r0 c0 hf
    obtain ⟨ch0, hcell0⟩ := (isFilledCell_iff _ _ _).mp hf
    obtain ⟨hr0a, hr0b, hc0a, hc0b⟩ := cellAt_bounds s.grid R C hsh r0 c0 _ hcell0
    have hmem0 : ((r0.toNat, c0.toNat) : Nat × Nat) ∈ allPositions s.grid := by
      rw [mem_allPositions, grows_of_shape s.grid R C hsh,
        gcols_of_shape s.grid R C hsh (by omega)]
      constructor <;> omega
    have hf0 : isFilledCell s.grid ((r0.toNat : Nat) : Int)
        ((c0.toNat : Nat) : Int) = true := by
      have e1 : ((r0.toNat : Nat) : Int) = r0 := by omega
      have e2 : ((c0.toNat : Nat) : Int) = c0 := by omega
      rw [e1, e2]
      exact hf
    obtain ⟨f1, f2, f3, f4, f5, f6⟩ := trimBounds_facts s.grid R C hsh _ hmem0 hf0
    have hcond : (trimBounds s.grid).minRow ≤ (trimBounds s.grid).maxRow ∧
        (trimBounds s.grid).minCol ≤ (trimBounds s.grid).maxCol := ⟨f2, f5⟩
    have hgr : (trimGrid s).grid =
        ((s.grid.drop (trimBounds s.grid).minRow.toNat).take
            ((trimBounds s.grid).maxRow - (trimBounds s.grid).minRow + 1).toNat).map
          (fun row => (row.drop (trimBounds s.grid).minCol.toNat).take
            ((trimBounds s.grid).maxCol - (trimBounds s.grid).minCol + 1).toNat) := by
      simp only [trimGrid]
      rw [if_pos hcond]
    have hah : (trimBounds s.grid).minRow.toNat +
        ((trimBounds s.grid).maxRow - (trimBounds s.grid).minRow + 1).toNat ≤ R := by
      omega
    have hah' : (trimBounds s.grid).minCol.toNat +
        ((trimBounds s.grid).maxCol - (trimBounds s.grid).minCol + 1).toNat ≤ C := by
      omega
    have hshT : GridShape (trimGrid s).grid
        ((trimBounds s.grid).maxRow - (trimBounds s.grid).minRow + 1).toNat
        ((trimBounds s.grid).maxCol - (trimBounds s.grid).minCol + 1).toNat := by
      rw [hgr]
      exact GridShape_dropTake s.grid R C hsh _ _ _ _ hah hah'
    have hgrows : (grows (trimGrid s).grid : Int) =
        (trimBounds s.grid).maxRow - (trimBounds s.grid).minRow + 1 := by
      rw [grows_of_shape _ _ _ hshT]
      omega
    have hgcols : (gcols (trimGrid s).grid : Int) =
        (trimBounds s.grid).maxCol - (trimBounds s.grid).minCol + 1 := by
      rw [gcols_of_shape _ _ _ hshT (by omega)]
      omega
    have ha : (((trimBounds s.grid).minRow.toNat : Nat) : Int) =
        (trimBounds s.grid).minRow := by omega
    have ha' : (((trimBounds s.grid).minCol.toNat : Nat) : Int) =
        (trimBounds s.grid).minCol := by omega
    have hcelleq : ∀ r c : Int, cellAt (trimGrid s).grid r c =
        if 0 ≤ r ∧ r ≤ (trimBounds s.grid).maxRow - (trimBounds s.grid).minRow ∧
            0 ≤ c ∧ c ≤ (trimBounds s.grid).maxCol - (trimBounds s.grid).minCol then
          cellAt s.grid (r + (trimBounds s.grid).minRow)
            (c + (trimBounds s.grid).minCol)
        else none := by
      intro r c
      rw [hgr, cellAt_dropTake s.grid R C hsh _ _ _ _ hah hah', ha, ha']
      by_cases hB : 0 ≤ r ∧ r ≤ (trimBounds s.grid).maxRow - (trimBounds s.grid).minRow ∧
          0 ≤ c ∧ c ≤ (trimBounds s.grid).maxCol - (trimBounds s.grid).minCol
      · rw [if_pos (show 0 ≤ r ∧
            r < ((((trimBounds s.grid).maxRow - (trimBounds s.grid).minRow
              + 1).toNat : Nat) : Int) ∧ 0 ≤ c ∧
            c < ((((trimBounds s.grid).maxCol - (trimBounds s.grid).minCol
              + 1).toNat : Nat) : Int) by omega), if_pos hB]
      · rw [if_neg (show ¬(0 ≤ r ∧
            r < ((((trimBounds s.grid).maxRow - (trimBounds s.grid).minRow
              + 1).toNat : Nat) : Int) ∧ 0 ≤ c ∧
            c < ((((trimBounds s.grid).maxCol - (trimBounds s.grid).minCol
              + 1).toNat : Nat) : Int)) by omega), if_neg hB]
    obtain ⟨hminR, hmaxR, hminC, hmaxC⟩ := trimBounds_achieved s.grid R C hsh _ hmem0 hf0
    refine ⟨⟨hgrows, hgcols⟩, hcelleq, ?_, ⟨?_, ?_, ?_, ?_⟩, ?_⟩
    · intro r c hf'
      exact trimBounds_contains s.grid R C hsh r c hf'
    · obtain ⟨rc, hmem, hfill, hval⟩ := hminR
      have hbox := trimBounds_contains s.grid R C hsh (rc.1 : Int) (rc.2 : Int) hfill
      refine ⟨(rc.2 : Int) - (trimBounds s.grid).minCol, ?_⟩
      rw [isFilledCell_iff]
      obtain ⟨ch, hch⟩ := (isFilledCell_iff _ _ _).mp hfill
      refine ⟨ch, ?_⟩
      rw [hcelleq, if_pos (by omega)]
      have e1 : (0 : Int) + (trimBounds s.grid).minRow = (rc.1 : Int) := by omega
      have e2 : (rc.2 : Int) - (trimBounds s.grid).minCol +
          (trimBounds s.grid).minCol = (rc.2 : Int) := by omega
      rw [e1, e2]
      exact hch
    · obtain ⟨rc, hmem, hfill, hval⟩ := hmaxR
      have hbox := trimBounds_contains s.grid R C hsh (rc.1 : Int) (rc.2 : Int) hfill
      refine ⟨(rc.2 : Int) - (trimBounds s.grid).minCol, ?_⟩
      rw [isFilledCell_iff]
      obtain ⟨ch, hch⟩ := (isFilledCell_iff _ _ _).mp hfill
      refine ⟨ch, ?_⟩
      rw [hcelleq, if_pos (by omega)]
      have e1 : (grows (trimGrid s).grid : Int) - 1 + (trimBounds s.grid).minRow =
          (rc.1 : Int) := by omega
      have e2 : (rc.2 : Int) - (trimBounds s.grid).minCol +
          (trimBounds s.grid).minCol = (rc.2 : Int) := by omega
      rw [e1, e2]
      exact hch
    · obtain ⟨rc, hmem, hfill, hval⟩ := hminC
      have hbox := trimBounds_contains s.grid R C hsh (rc.1 : Int) (rc.2 : Int) hfill
      refine ⟨(rc.1 : Int) - (trimBounds s.grid).minRow, ?_⟩
      rw [isFilledCell_iff]
      obtain ⟨ch, hch⟩ := (isFilledCell_iff _ _ _).mp hfill
      refine ⟨ch, ?_⟩
      rw [hcelleq, if_pos (by omega)]
      have e1 : (rc.1 : Int) - (trimBounds s.grid).minRow +
          (trimBounds s.grid).minRow = (rc.1 : Int) := by omega
      have e2 : (0 : Int) + (trimBounds s.grid).minCol = (rc.2 : Int) := by omega
      rw [e1, e2]
      exact hch
    · obtain ⟨rc, hmem, hfill, hval⟩ := hmaxC
      have hbox := trimBounds_contains s.grid R C hsh (rc.1 : Int) (rc.2 : Int) hfill
      refine ⟨(rc.1 : Int) - (trimBounds s.grid).minRow, ?_⟩
      rw [isFilledCell_iff]
      obtain ⟨ch, hch⟩ := (isFilledCell_iff _ _ _).mp hfill
      refine ⟨ch, ?_⟩
      rw [hcelleq, if_pos (by omega)]
      have e1 : (rc.1 : Int) - (trimBounds s.grid).minRow +
          (trimBounds s.grid).minRow = (rc.1 : Int) := by omega
      have e2 : (gcols (trimGrid s).grid : Int) - 1 + (trimBounds s.grid).minCol =
          (rc.2 : Int) := by omega
      rw [e1, e2]
      exact hch
    · simp only [trimGrid]
      rw [if_pos hcond]

theorem trimGrid_bounding_box_witness :
    ((grows (trimGrid ⟨[[none, none, none], [none, some 'a', none],
          [none, none, none]], [⟨['a'], 1, 1, true, 1⟩], 2⟩).grid : Int) =
        (trimBounds (⟨[[none, none, none], [none, some 'a', none],
          [none, none, none]], [⟨['a'], 1, 1, true, 1⟩], 2⟩ : GenState).grid).maxRow -
        (trimBounds (⟨[[none, none, none], [none, some 'a', none],
          [none, none, none]], [⟨['a'], 1, 1, true, 1⟩], 2⟩ : GenState).grid).minRow + 1 ∧
      (gcols (trimGrid ⟨[[none, none, none], [none, some 'a', none],
          [none, none, none]], [⟨['a'], 1, 1, true, 1⟩], 2⟩).grid : Int) =
        (trimBounds (⟨[[none, none, none], [none, some 'a', none],
          [none, none, none]], [⟨['a'], 1, 1, true, 1⟩], 2⟩ : GenState).grid).maxCol -
        (trimBounds (⟨[[none, none, none], [none, some 'a', none],
          [none, none, none]], [⟨['a'], 1, 1, true, 1⟩], 2⟩ : GenState).grid).minCol + 1) ∧
    (trimGrid ⟨[[none, none, none], [none, some 'a', none],
        [none, none, none]], [⟨['a'], 1, 1, true, 1⟩], 2⟩).placedWords =
      ([⟨['a'], 1, 1, true, 1⟩] : List PlacedWord).map fun pw =>
        { pw with
          row := pw.row - (trimBounds (⟨[[none, none, none], [none, some 'a', none],
            [none, none, none]], [⟨['a'], 1, 1, true, 1⟩], 2⟩ : GenState).grid).minRow
          col := pw.col - (trimBounds (⟨[[none, none, none], [none, some 'a', none],
            [none, none, none]], [⟨['a'], 1, 1, true, 1⟩], 2⟩ : GenState).grid).minCol } :=
  ⟨((trimGrid_bounding_box 3 3 ⟨[[none, none, none], [none, some 'a', none],
      [none, none, none]], [⟨['a'], 1, 1, true, 1⟩], 2⟩ (⟨rfl, by decide⟩)).2 1 1
      (by with_unfolding_all decide)).1,
    ((trimGrid_bounding_box 3 3 ⟨[[none, none, none], [none, some 'a', none],
      [none, none, none]], [⟨['a'], 1, 1, true, 1⟩], 2⟩ (⟨rfl, by decide⟩)).2 1 1
      (by with_unfolding_all decide)).2.2.2.2⟩
